import Mathlib

/-!
# Verification of the vibecation voting / itinerary-merge core

Shallow embedding of the algorithmic core of the vibecation backend
(`backend/main.py`, `backend/brainstormchat.py`) and proofs of the
spec's claims about it.

Conventions:
* Python strings are Lean `String`s; Python string operations are
  modelled character-wise on `String.data` (the code only manipulates
  them by splitting / slicing / comparing, which is character-based in
  Python).
* Python dicts flowing through the pipeline are modelled as structures
  whose fields use `""` for an absent key wherever the code reads the
  key with `.get(k, "")` (absent and empty behave identically there).
* MongoDB collections are modelled as lists of records in insertion
  order; `find_one` is `List.find?`, `insert_one` appends,
  `delete_one {_id}` / `update_one {_id}` erase / rewrite the matched
  record.
* `hashlib.md5(...).hexdigest()` is embedded as a full executable MD5
  over the UTF-8 bytes of the input.
-/

namespace Vibecation

/-! ## Python string helpers -/

/-- Python `str.lower()` (ASCII range; the lookup keys compared against
are all ASCII). -/
def pyLower (s : String) : String := ⟨s.data.map Char.toLower⟩

/-- First-occurrence deduplication, the semantics of collecting
`set(...)` membership in encounter order. -/
def seenDedup (l : List String) : List String :=
  l.foldl (fun acc s => if s ∈ acc then acc else acc ++ [s]) []

/-! ## MD5 (`hashlib.md5(key.encode()).hexdigest()`)

Executable MD5 over byte lists, RFC 1321. Bytes and 32-bit words are
`Nat`s kept below their bound with explicit masking. -/

def mask32 : Nat := 4294967295

def rotl32 (x n : Nat) : Nat := ((x <<< n) ||| (x >>> (32 - n))) &&& mask32

/-- The 64 MD5 round constants `K[i] = floor(abs(sin(i+1)) * 2^32)`. -/
def md5K : List Nat :=
  [0xd76aa478, 0xe8c7b756, 0x242070db, 0xc1bdceee,
   0xf57c0faf, 0x4787c62a, 0xa8304613, 0xfd469501,
   0x698098d8, 0x8b44f7af, 0xffff5bb1, 0x895cd7be,
   0x6b901122, 0xfd987193, 0xa679438e, 0x49b40821,
   0xf61e2562, 0xc040b340, 0x265e5a51, 0xe9b6c7aa,
   0xd62f105d, 0x02441453, 0xd8a1e681, 0xe7d3fbc8,
   0x21e1cde6, 0xc33707d6, 0xf4d50d87, 0x455a14ed,
   0xa9e3e905, 0xfcefa3f8, 0x676f02d9, 0x8d2a4c8a,
   0xfffa3942, 0x8771f681, 0x6d9d6122, 0xfde5380c,
   0xa4beea44, 0x4bdecfa9, 0xf6bb4b60, 0xbebfbc70,
   0x289b7ec6, 0xeaa127fa, 0xd4ef3085, 0x04881d05,
   0xd9d4d039, 0xe6db99e5, 0x1fa27cf8, 0xc4ac5665,
   0xf4292244, 0x432aff97, 0xab9423a7, 0xfc93a039,
   0x655b59c3, 0x8f0ccc92, 0xffeff47d, 0x85845dd1,
   0x6fa87e4f, 0xfe2ce6e0, 0xa3014314, 0x4e0811a1,
   0xf7537e82, 0xbd3af235, 0x2ad7d2bb, 0xeb86d391]

/-- MD5 per-round left-rotation amounts. -/
def md5S : List Nat :=
  [7, 12, 17, 22, 7, 12, 17, 22, 7, 12, 17, 22, 7, 12, 17, 22,
   5, 9, 14, 20, 5, 9, 14, 20, 5, 9, 14, 20, 5, 9, 14, 20,
   4, 11, 16, 23, 4, 11, 16, 23, 4, 11, 16, 23, 4, 11, 16, 23,
   6, 10, 15, 21, 6, 10, 15, 21, 6, 10, 15, 21, 6, 10, 15, 21]

/-- Little-endian bytes of `n`, `k` bytes long. -/
def leBytes (n : Nat) : Nat → List Nat
  | 0 => []
  | k + 1 => (n % 256) :: leBytes (n / 256) k

/-- Group a byte list into little-endian 32-bit words. -/
def toWords : List Nat → List Nat
  | b0 :: b1 :: b2 :: b3 :: rest =>
    (b0 + b1 * 256 + b2 * 65536 + b3 * 16777216) :: toWords rest
  | _ => []

/-- One MD5 round `i` on state `(A, B, C, D)` with message words `M`. -/
def md5Round (M : List Nat) (st : Nat × Nat × Nat × Nat) (i : Nat) :
    Nat × Nat × Nat × Nat :=
  let A := st.1; let B := st.2.1; let C := st.2.2.1; let D := st.2.2.2
  let FG : Nat × Nat :=
    if i < 16 then ((B &&& C) ||| ((B ^^^ mask32) &&& D), i)
    else if i < 32 then ((D &&& B) ||| ((D ^^^ mask32) &&& C), (5 * i + 1) % 16)
    else if i < 48 then (B ^^^ C ^^^ D, (3 * i + 5) % 16)
    else (C ^^^ (B ||| (D ^^^ mask32)), (7 * i) % 16)
  let F := (FG.1 + A + md5K.getD i 0 + M.getD FG.2 0) &&& mask32
  (D, (B + rotl32 F (md5S.getD i 0)) &&& mask32, B, C)

/-- Process one 64-byte chunk. -/
def md5Chunk (st : Nat × Nat × Nat × Nat) (chunk : List Nat) :
    Nat × Nat × Nat × Nat :=
  let M := toWords chunk
  let r := (List.range 64).foldl (md5Round M) st
  ((st.1 + r.1) &&& mask32, (st.2.1 + r.2.1) &&& mask32,
   (st.2.2.1 + r.2.2.1) &&& mask32, (st.2.2.2 + r.2.2.2) &&& mask32)

/-- Consume the padded message 64 bytes at a time, feeding each chunk to
`md5Chunk`. Structural recursion on a fuel argument (always called with
fuel `l.length`, far more than the number of chunks) so that the kernel
can evaluate it. -/
def md5Process (st : Nat × Nat × Nat × Nat) (l : List Nat) :
    Nat → Nat × Nat × Nat × Nat
  | 0 => st
  | fuel + 1 =>
    if l = [] then st
    else md5Process (md5Chunk st (l.take 64)) (l.drop 64) fuel

/-- MD5 padding: `0x80`, zeros to 56 mod 64, 8-byte little-endian bit
length. -/
def md5Pad (msg : List Nat) : List Nat :=
  msg ++ [128] ++ List.replicate ((119 - (msg.length % 64)) % 64) 0
      ++ leBytes (msg.length * 8) 8

/-- MD5 digest (16 bytes) of a byte list. -/
def md5Bytes (msg : List Nat) : List Nat :=
  let p := md5Pad msg
  let st := md5Process (0x67452301, 0xefcdab89, 0x98badcfe, 0x10325476) p p.length
  leBytes st.1 4 ++ leBytes st.2.1 4 ++ leBytes st.2.2.1 4 ++ leBytes st.2.2.2 4

def hexDigitChars : List Char := "0123456789abcdef".data

def byteToHex (b : Nat) : List Char :=
  [hexDigitChars.getD (b / 16) '0', hexDigitChars.getD (b % 16) '0']

/-- UTF-8 encoding of one character (what Python `str.encode()` does). -/
def utf8EncodeChar (c : Char) : List Nat :=
  let n := c.toNat
  if n < 128 then [n]
  else if n < 2048 then [192 + n / 64, 128 + n % 64]
  else if n < 65536 then [224 + n / 4096, 128 + (n / 64) % 64, 128 + n % 64]
  else [240 + n / 262144, 128 + (n / 4096) % 64, 128 + (n / 64) % 64, 128 + n % 64]

def utf8Bytes (s : String) : List Nat := (s.data.map utf8EncodeChar).flatten

/-- `hashlib.md5(s.encode()).hexdigest()` — 32 lowercase hex characters. -/
def md5_hexdigest (s : String) : String :=
  ⟨((md5Bytes (utf8Bytes s)).map byteToHex).flatten⟩

/-! ## Itinerary normalizer (`backend/brainstormchat.py`)

Activities arrive as dicts produced by `Trip.model_dump(mode='json')`
(or stored suggestion documents): every pydantic field is present and
datetimes are ISO strings, so the dict is modelled as a structure of
`String` / `Float` fields. A possible extra `"vigor"` key on the dict
is carried as a field so that theorems can state that the transform
ignores it. Nested sub-activities (`"activities"`) make the type a
tree. -/

structure ActCore where
  activity_id : String
  activity_name : String
  activity_type : String
  activity_description : String
  from_date_time : String
  to_date_time : String
  start_location : String
  end_location : String
  start_lat : Float
  start_lon : Float
  end_lat : Float
  end_lon : Float
  vigor : String

inductive ActTree : Type where
  | node : ActCore → List ActTree → ActTree

def ActTree.core : ActTree → ActCore
  | node c _ => c

def ActTree.children : ActTree → List ActTree
  | node _ ch => ch

structure TripData where
  trip_name : String
  trip_id : String
  activities : List ActTree
  trip_summary : String

/-- `infer_vigor_from_type` (`brainstormchat.py:53-62`):
`vigor_map.get(activity_type.lower(), "medium")`. -/
def infer_vigor_from_type (activity_type : String) : String :=
  let k := pyLower activity_type
  if k = "attraction" then "medium"
  else if k = "travel" then "low"
  else if k = "food" then "low"
  else if k = "entertainment" then "medium"
  else if k = "accommodation" then "low"
  else "medium"

/-- The frontend-format activity dict built by
`transform_activity_to_frontend_format`. -/
structure FrontAct where
  id : String
  activity_id : String
  activity_name : String
  type : String
  description : String
  from_date_time : String
  to_date_time : String
  location : String
  vigor : String
  start_lat : Float
  start_lon : Float
  end_lat : Float
  end_lon : Float

/-- `transform_activity_to_frontend_format` (`brainstormchat.py:65-90`).
The datetime fields are already ISO strings here (`model_dump(mode='json')`),
so the `isinstance(..., datetime)` conversion branch is a no-op. Note the
function never reads the input's `vigor`. -/
def transform_activity_to_frontend_format (a : ActCore) : FrontAct :=
  { id := a.activity_id
    activity_id := a.activity_id
    activity_name := a.activity_name
    type := if a.activity_type ≠ "" then pyLower a.activity_type else ""
    description := a.activity_description
    from_date_time := a.from_date_time
    to_date_time := a.to_date_time
    location := a.start_location
    vigor := infer_vigor_from_type a.activity_type
    start_lat := a.start_lat
    start_lon := a.start_lon
    end_lat := a.end_lat
    end_lon := a.end_lon }

mutual

/-- `flatten_activities` (`brainstormchat.py:93-103`): append each
activity, then its recursively flattened children (depth-first,
preserving order). Mutual with `flattenOne` for structural recursion. -/
def flatten_activities : List ActTree → List ActTree
  | [] => []
  | t :: rest => flattenOne t ++ flatten_activities rest

/-- One activity followed by its flattened children. -/
def flattenOne : ActTree → List ActTree
  | .node c ch => .node c ch :: flatten_activities ch

end

/-- Date extraction from `from_date_time` inside `transform_trip_to_days`
(`brainstormchat.py:126-148`), string case: prefix before `'T'` if
present, else prefix before `' '` if present, else the first 10
characters when at least 10 are available, else `""` (the activity is
then skipped). -/
def extract_date (s : String) : String :=
  if s.data.contains 'T' then ⟨s.data.takeWhile (· ≠ 'T')⟩
  else if s.data.contains ' ' then ⟨s.data.takeWhile (· ≠ ' ')⟩
  else if s.data.length ≥ 10 then ⟨s.data.take 10⟩
  else ""

/-- The value held in `days_dict[date_str]` while grouping. -/
structure DayAcc where
  date : String
  location : String
  activities : List FrontAct

/-- One step of the `days_dict` update: append the transformed activity
to the entry for `ds`, creating the entry (at the end, dict insertion
order) with the activity's `start_location` if absent. -/
def pushAct : List (String × DayAcc) → String → ActCore → List (String × DayAcc)
  | [], ds, c => [(ds, ⟨ds, c.start_location, [transform_activity_to_frontend_format c]⟩)]
  | (k, g) :: rest, ds, c =>
    if k = ds then
      (k, { g with activities := g.activities ++ [transform_activity_to_frontend_format c] }) :: rest
    else
      (k, g) :: pushAct rest ds c

/-- The grouping loop of `transform_trip_to_days`: fold the flattened
activities into the insertion-ordered `days_dict`. -/
def groupByDate (l : List ActTree) : List (String × DayAcc) :=
  l.foldl (fun acc t =>
    let ds := extract_date t.core.from_date_time
    if ds = "" then acc else pushAct acc ds t.core) []

/-- A day object of the output list. -/
structure DayOut where
  id : Nat
  date : String
  location : String
  description : String
  activities : List FrontAct

/-- Python string `<`: lexicographic comparison of the code-point
sequences (shorter strict prefix is smaller). -/
def charListLt : List Char → List Char → Bool
  | [], [] => false
  | [], _ :: _ => true
  | _ :: _, [] => false
  | a :: as, b :: bs =>
    if a.toNat < b.toNat then true
    else if b.toNat < a.toNat then false
    else charListLt as bs

/-- Python string `<` on `String`s. -/
def pyStrLt (a b : String) : Bool := charListLt a.data b.data

/-- Python string `<=` on `String`s. -/
def pyStrLe (a b : String) : Bool := !(charListLt b.data a.data)

/-- `sorted(days_dict.items())`: Python sorts the `(key, value)` tuples
ascending; keys are distinct so this is a stable sort by date string
(Python sorts are stable). -/
def sortDays (l : List (String × DayAcc)) : List (String × DayAcc) :=
  l.insertionSort (fun p q => pyStrLe p.1 q.1 = true)

/-- `transform_trip_to_days` (`brainstormchat.py:106-176`). -/
def transform_trip_to_days (trip : TripData) : List DayOut :=
  if trip.activities.isEmpty then []
  else
    let flat := flatten_activities trip.activities
    (sortDays (groupByDate flat)).enum.map fun p =>
      { id := p.1 + 1
        date := p.2.2.date
        location := p.2.2.location
        description := "Day " ++ toString (p.1 + 1) ++ " in " ++ p.2.2.location
        activities := p.2.2.activities }

/-! ## Vote store (`backend/main.py`, `vote_activity` 1987-2083 /
`vote_location` 2086-2181; the two handlers are textually identical up
to the `voteType` constant, so one embedding covers both)

The `votes` collection is a list of records in insertion order.
`find_one(vote_query)` returns the first record matching the four key
fields; `delete_one({_id})` / `update_one({_id})` erase / rewrite
exactly the record that was found (the first match). -/

structure VoteKey where
  tripID : String
  userID : String
  optionID : String
  voteType : String
deriving DecidableEq

structure VoteRec where
  tripID : String
  userID : String
  optionID : String
  voteType : String
  vote : Bool
deriving DecidableEq

/-- Does a record match the `vote_query` for key `k`? -/
def VoteRec.keyEq (r : VoteRec) (k : VoteKey) : Prop :=
  r.tripID = k.tripID ∧ r.userID = k.userID ∧
    r.optionID = k.optionID ∧ r.voteType = k.voteType

instance (r : VoteRec) (k : VoteKey) : Decidable (r.keyEq k) := by
  unfold VoteRec.keyEq; infer_instance

/-- The fresh document built on the insert path. -/
def mkVote (k : VoteKey) (v : Bool) : VoteRec :=
  ⟨k.tripID, k.userID, k.optionID, k.voteType, v⟩

/-- `update_one({_id: existing._id}, {$set: {vote: v}})`: rewrite the
vote value of the first record matching `k`. -/
def updateFirst : List VoteRec → VoteKey → Bool → List VoteRec
  | [], _, _ => []
  | r :: rs, k, v =>
    if r.keyEq k then { r with vote := v } :: rs else r :: updateFirst rs k v

/-- The response body `{action, vote}` of a vote handler. -/
structure CastRes where
  action : String
  vote : Option Bool
deriving DecidableEq

/-- The three-way toggle of `vote_activity` / `vote_location`
(`main.py:2016-2062`): no existing record → insert (`created`); existing
with the same value → delete it (`removed`, vote `null`); existing with
the other value → update it in place (`updated`). -/
def cast_vote (s : List VoteRec) (k : VoteKey) (v : Bool) :
    CastRes × List VoteRec :=
  match s.find? (fun r => decide (r.keyEq k)) with
  | some existing =>
    if existing.vote = v then
      (⟨"removed", none⟩, s.eraseP (fun r => decide (r.keyEq k)))
    else
      (⟨"updated", some v⟩, updateFirst s k v)
  | none => (⟨"created", some v⟩, s ++ [mkVote k v])

/-- The duplicate-key recovery path (`main.py:2063-2083`): when the
insert raises a duplicate-key error (a concurrent insert won the race),
re-read the record for the key and update it in place instead of
inserting a second one; if it is still absent, the error is re-raised
(`none`). -/
def duplicate_recovery (s : List VoteRec) (k : VoteKey) (v : Bool) :
    Option CastRes × List VoteRec :=
  match s.find? (fun r => decide (r.keyEq k)) with
  | some _ => (some ⟨"updated", some v⟩, updateFirst s k v)
  | none => (none, s)

/-- A sequence of casts applied in order. -/
def cast_votes (ops : List (VoteKey × Bool)) (s : List VoteRec) : List VoteRec :=
  ops.foldl (fun st op => (cast_vote st op.1 op.2).2) s

/-- Number of records in the store matching key `k`. -/
def countKey (k : VoteKey) (s : List VoteRec) : Nat :=
  s.countP (fun r => decide (r.keyEq k))

/-! ## Vote aggregator

`finalize_polls` (`main.py:2304-2339`): per poll type, fold the votes
into a per-`optionID` tally dict (insertion-ordered), skipping records
whose `optionID` is falsy, then emit `{optionID, upvotes, downvotes,
netScore}` options in dict order. -/

structure Tally where
  up : Nat
  down : Nat
deriving DecidableEq

/-- Count one vote into the insertion-ordered tally dict. -/
def pushVoteTally : List (String × Tally) → String → Bool → List (String × Tally)
  | [], o, v => [(o, if v then ⟨1, 0⟩ else ⟨0, 1⟩)]
  | (k, t) :: rest, o, v =>
    if k = o then
      (k, if v then ⟨t.up + 1, t.down⟩ else ⟨t.up, t.down + 1⟩) :: rest
    else (k, t) :: pushVoteTally rest o v

/-- The `option_votes` dict of `finalize_polls` (`main.py:2312-2328`);
records with a falsy `optionID` are skipped. -/
def tallyVotes (votes : List VoteRec) : List (String × Tally) :=
  votes.foldl
    (fun acc v => if v.optionID = "" then acc else pushVoteTally acc v.optionID v.vote) []

structure OptionAgg where
  optionID : String
  upvotes : Nat
  downvotes : Nat
  netScore : Int
deriving DecidableEq

/-- The `options` array built for one poll type by `finalize_polls`
(`main.py:2306-2339`). -/
def aggregate_poll_options (all_votes : List VoteRec) (poll_type : String) :
    List OptionAgg :=
  let type_votes := all_votes.filter (fun v => v.voteType = poll_type)
  (tallyVotes type_votes).map fun p => ⟨p.1, p.2.up, p.2.down, (p.2.up : Int) - p.2.down⟩

/-- The `activity_votes` aggregation of `get_trip_overview`
(`main.py:584-593`): same fold, but filtered on
`voteType == "activity"` inline and with no falsy-`optionID` skip. -/
def overview_activity_votes (all_votes : List VoteRec) : List (String × Tally) :=
  all_votes.foldl
    (fun acc v => if v.voteType = "activity" then pushVoteTally acc v.optionID v.vote else acc) []

/-- `sorted([a for a in activities if a["net_score"] > 0],
key=net_score, reverse=True)[:10]` (`main.py:749-753`). Python's sort
is stable and `reverse=True` keeps ties in input order, which is what
`insertionSort` with the reflexive descending comparison does. -/
def top_ten_by_net_score (l : List OptionAgg) : List OptionAgg :=
  ((l.filter (fun a => 0 < a.netScore)).insertionSort
    (fun a b => b.netScore ≤ a.netScore)).take 10

/-! ## Completion tracker (`check_brainstorm_completion` 529-564,
`check_polling_completion` 2224-2259)

Both handlers receive the trip's `members` array and the user IDs of
the phase's records (`status=submitted` suggestion owners, resp.
`polling_completion` rows) and compare
`len(set(user_ids)) >= len(members)`. `list(set(...))` is modelled as
first-occurrence deduplication (Python set order is unspecified). -/

structure CompletionResult where
  allCompleted : Bool
  totalMembers : Nat
  completedMembers : Nat
  completedUserIDs : List String
deriving DecidableEq

/-- Core of `check_brainstorm_completion` (`main.py:540-564`). -/
def check_brainstorm_completion (members submitted_user_ids : List String) :
    CompletionResult :=
  if members.isEmpty then ⟨false, 0, 0, []⟩
  else
    let distinct := seenDedup submitted_user_ids
    ⟨decide (members.length ≤ distinct.length),
      members.length, distinct.length, distinct⟩

/-- Core of `check_polling_completion` (`main.py:2235-2259`) — textually
the same computation over the `polling_completion` user IDs. -/
def check_polling_completion (members finished_user_ids : List String) :
    CompletionResult :=
  if members.isEmpty then ⟨false, 0, 0, []⟩
  else
    let distinct := seenDedup finished_user_ids
    ⟨decide (members.length ≤ distinct.length),
      members.length, distinct.length, distinct⟩

/-- The completion condition as the spec states it: count of distinct
submitting user IDs `≥` count of distinct trip member IDs. -/
def completion_spec_allCompleted (members submitted_user_ids : List String) : Bool :=
  decide ((seenDedup members).length ≤ (seenDedup submitted_user_ids).length)

/-! ## Identity resolver (`get_trip_overview` 631-635,
`get_activity_poll` 1668-1674, identical key derivation)

Input activities here are stored suggestion dicts; a field holds `""`
both for an absent key and an empty value (`activity.get("activity_id")`
is falsy in both cases, and `activity.get('location', '')` yields `""`
when the key is absent). -/

structure SugAct where
  activity_id : String
  activity_name : String
  type : String
  location : String
  start_location : String
  description : String
  vigor : String

/-- The activity-ID derivation of `get_trip_overview` /
`get_activity_poll`: pass a truthy `activity_id` through, else
`"act_" + md5(f"{name}_{type}_{location}")[:12]` — the key's location
component is `activity.get('location', '')`, with no `start_location`
fallback. -/
def resolve_activity_id (a : SugAct) : String :=
  if a.activity_id ≠ "" then a.activity_id
  else
    let activity_key := a.activity_name ++ "_" ++ a.type ++ "_" ++ a.location
    "act_" ++ ⟨(md5_hexdigest activity_key).data.take 12⟩

/-- The derivation as the spec/claim words it: content key
`(activity_name, type, location)` **with `start_location` as the
location fallback**. -/
def resolve_activity_id_spec (a : SugAct) : String :=
  if a.activity_id ≠ "" then a.activity_id
  else
    let loc := if a.location ≠ "" then a.location else a.start_location
    let activity_key := a.activity_name ++ "_" ++ a.type ++ "_" ++ loc
    "act_" ++ ⟨(md5_hexdigest activity_key).data.take 12⟩

/-! ## Plan merger (`create_final_plan`, `brainstormchat.py:227-338`)

The generative collaborator call is modelled by its outcome: `some
trip_data` when `client.responses.parse` returns a parsed `Trip`,
`none` when it throws. The prompt built from the submissions and poll
results only feeds the collaborator, so it does not appear in the
model; the poll results are still passed to show the fallback ignores
them. -/

structure PollResults where
  activities : List String
  locations : List String
  cuisines : List String

structure PlanResult where
  days : List DayOut
  trip_summary : String

/-- `create_final_plan` (`brainstormchat.py:304-338`): on success,
normalize the returned trip; on any exception, fall back to
`old_plans[0] if old_plans[0] else []` with the fixed merging summary
when submissions exist, else `days=[]` with the unable summary. -/
def create_final_plan (collab_response : Option TripData)
    (old_plans : List (List DayOut)) (_poll_results : PollResults) : PlanResult :=
  match collab_response with
  | some trip_data => ⟨transform_trip_to_days trip_data, trip_data.trip_summary⟩
  | none =>
    match old_plans with
    | [] => ⟨[], "Unable to generate final plan."⟩
    | p :: _ =>
      ⟨if p.isEmpty then [] else p,
        "Final plan created by merging multiple suggestions and incorporating poll results."⟩

/-- The fallback as the spec/claim words it: the **first non-empty**
submission becomes `days`; with no (non-empty) submissions, `days=[]`
and the unable summary. -/
def create_final_plan_fallback_spec (old_plans : List (List DayOut)) : PlanResult :=
  match old_plans.find? (fun p => !p.isEmpty) with
  | some p =>
    ⟨p, "Final plan created by merging multiple suggestions and incorporating poll results."⟩
  | none => ⟨[], "Unable to generate final plan."⟩

/-! ## Proof-side characterizations

Direct (fold-free) descriptions of the insertion-ordered dict folds
above, proved equal to them below and used to state the claims. -/

/-- Shorthand: the extracted date of one flattened activity. -/
def actDate (t : ActTree) : String := extract_date t.core.from_date_time

/-- The distinct non-empty dates of `l`, in first-seen order — the key
set of `days_dict` in insertion order. -/
def datesOf (l : List ActTree) : List String :=
  seenDedup ((l.map actDate).filter (fun ds => ds ≠ ""))

/-- The transformed activities of date `ds`, in encounter order. -/
def fiberActs (l : List ActTree) (ds : String) : List FrontAct :=
  (l.filter (fun t => actDate t = ds)).map
    (fun t => transform_activity_to_frontend_format t.core)

/-- The `start_location` of the first activity of date `ds`. -/
def firstLoc (l : List ActTree) (ds : String) : String :=
  match l.find? (fun t => actDate t = ds) with
  | some t => t.core.start_location
  | none => ""

/-- Fold-free description of `groupByDate`. -/
def groupSpec (l : List ActTree) : List (String × DayAcc) :=
  (datesOf l).map fun ds => (ds, ⟨ds, firstLoc l ds, fiberActs l ds⟩)

/-- Tallying a plain list of `(optionID, vote)` pairs; both vote
aggregations reduce to this. -/
def tallyPairs (ps : List (String × Bool)) : List (String × Tally) :=
  ps.foldl (fun acc p => pushVoteTally acc p.1 p.2) []

/-- The distinct option IDs of the pair list, in first-seen order. -/
def optIDs (ps : List (String × Bool)) : List String := seenDedup (ps.map (·.1))

/-- Fold-free description of `tallyPairs`: per option, the number of
`true` and of `false` votes. -/
def tallySpec (ps : List (String × Bool)) : List (String × Tally) :=
  (optIDs ps).map fun o =>
    (o, ⟨ps.countP (fun p => decide (p.1 = o) && p.2),
         ps.countP (fun p => decide (p.1 = o) && !p.2)⟩)

/-! ## Concrete instances used by witnesses and counterexamples -/

/-- A flat activity with the given name, start time and location. -/
def mkAct (name dt loc : String) : ActTree :=
  .node ⟨"id_" ++ name, name, "attraction", "desc", dt, dt, loc, loc,
    0.0, 0.0, 0.0, 0.0, ""⟩ []

/-- The spec's grouping scenario: two activities on 2025-04-12, one on
2025-04-13 (listed with the later date first to exercise the sort). -/
def exTripC5 : TripData :=
  ⟨"trip", "t1",
   [mkAct "a3" "2025-04-13T10:00:00Z" "Rome",
    mkAct "a1" "2025-04-12T10:00:00Z" "Paris",
    mkAct "a2" "2025-04-12T14:00:00Z" "Lyon"], "sum"⟩

/-- A trip whose only activity has a `'T'`-separated `from_date_time`
providing fewer than 10 characters of date. -/
def exTripC8 : TripData := ⟨"trip", "t1", [mkAct "a1" "12T10:00" "Paris"], "sum"⟩

/-- An activity with no explicit ID and no `location` key, but with a
`start_location` — the input where the code and the spec's
`start_location` fallback disagree. -/
def exSugAct : SugAct := ⟨"", "Louvre", "attraction", "", "Paris", "", ""⟩

/-- A one-day plan used as a non-empty submission. -/
def exDay : DayOut := ⟨1, "2025-04-12", "Barcelona", "Day 1 in Barcelona", []⟩

def exPoll : PollResults := ⟨[], [], []⟩

def exKey : VoteKey := ⟨"trip1", "user1", "act_001", "activity"⟩

/-- A one-activity trip and its (single) output day, used by witnesses. -/
def exTripC10 : TripData :=
  ⟨"trip", "t1", [mkAct "a1" "2025-04-12T10:00:00Z" "Paris"], "sum"⟩

def exDayC10 : DayOut :=
  ⟨1, "2025-04-12", "Paris", "Day 1 in Paris",
   [transform_activity_to_frontend_format
     (mkAct "a1" "2025-04-12T10:00:00Z" "Paris").core]⟩

def dummyDay : DayOut := ⟨0, "", "", "", []⟩

def exVotes : List VoteRec :=
  [⟨"t", "u", "o1", "activity", true⟩, ⟨"t", "w", "o1", "activity", false⟩]

/-! ## General lemmas -/

theorem seenDedup_go_mem (l : List String) (acc : List String) (x : String) :
    x ∈ l.foldl (fun acc s => if s ∈ acc then acc else acc ++ [s]) acc ↔
      x ∈ acc ∨ x ∈ l := by
  induction l generalizing acc with
  | nil => simp
  | cons a l ih =>
    simp only [List.foldl_cons, List.mem_cons]
    by_cases h : a ∈ acc
    · rw [if_pos h, ih]
      constructor
      · rintro (hx | hx)
        · exact Or.inl hx
        · exact Or.inr (Or.inr hx)
      · rintro (hx | rfl | hx)
        · exact Or.inl hx
        · exact Or.inl h
        · exact Or.inr hx
    · rw [if_neg h, ih]
      simp only [List.mem_append, List.mem_singleton]
      tauto

theorem seenDedup_go_nodup (l : List String) (acc : List String) (h : acc.Nodup) :
    (l.foldl (fun acc s => if s ∈ acc then acc else acc ++ [s]) acc).Nodup := by
  induction l generalizing acc with
  | nil => simpa
  | cons a l ih =>
    simp only [List.foldl_cons]
    by_cases ha : a ∈ acc
    · simpa [ha] using ih acc h
    · simp only [ha, if_false]
      exact ih _ (by simp [List.nodup_append, h, ha])

theorem mem_seenDedup (l : List String) (x : String) :
    x ∈ seenDedup l ↔ x ∈ l := by
  unfold seenDedup; rw [seenDedup_go_mem]; simp

theorem seenDedup_nodup (l : List String) : (seenDedup l).Nodup :=
  seenDedup_go_nodup l [] List.nodup_nil

theorem seenDedup_append_singleton (l : List String) (a : String) :
    seenDedup (l ++ [a]) =
      if a ∈ seenDedup l then seenDedup l else seenDedup l ++ [a] := by
  unfold seenDedup
  rw [List.foldl_append]
  rfl

theorem seenDedup_length_eq_card (l : List String) :
    (seenDedup l).length = l.toFinset.card := by
  have h1 : (seenDedup l).toFinset = l.toFinset := by
    ext x; simp [mem_seenDedup]
  rw [← h1, List.toFinset_card_of_nodup (seenDedup_nodup l)]

theorem countP_and_split {α : Type} (l : List α) (p q : α → Bool) :
    l.countP (fun x => p x && q x) + l.countP (fun x => p x && !q x) =
      l.countP p := by
  induction l with
  | nil => rfl
  | cons a l ih =>
    simp only [List.countP_cons]
    cases hp : p a <;> cases hq : q a <;> simp [hp, hq] <;> omega

theorem foldl_filter_if {α β : Type} (p : α → Bool) (f : β → α → β)
    (l : List α) (init : β) :
    l.foldl (fun acc x => if p x then f acc x else acc) init =
      (l.filter p).foldl f init := by
  induction l generalizing init with
  | nil => rfl
  | cons a l ih =>
    by_cases h : p a <;> simp [List.filter_cons, h, ih]

/-! ## Order lemmas for the Python string comparison -/

theorem charListLt_nil_left_eq_false (a : List Char) :
    charListLt a [] = false := by
  cases a <;> rfl

theorem charListLt_le_trans (a b c : List Char)
    (hba : charListLt b a = false) (hcb : charListLt c b = false) :
    charListLt c a = false := by
  induction a generalizing b c with
  | nil => exact charListLt_nil_left_eq_false c
  | cons x xs ih =>
    cases b with
    | nil => simp [charListLt] at hba
    | cons y ys =>
      cases c with
      | nil => simp [charListLt] at hcb
      | cons z zs =>
        simp only [charListLt] at hba hcb ⊢
        split_ifs at hba hcb ⊢ <;>
          first
            | rfl
            | (exact ih ys zs hba hcb)
            | (exfalso; omega)
            | simp_all

theorem charListLt_asymm (a b : List Char) (h : charListLt a b = true) :
    charListLt b a = false := by
  induction a generalizing b with
  | nil =>
    cases b with
    | nil => simp [charListLt] at h
    | cons y ys => rfl
  | cons x xs ih =>
    cases b with
    | nil => simp [charListLt] at h
    | cons y ys =>
      simp only [charListLt] at h ⊢
      split_ifs at h ⊢ <;>
        first
          | rfl
          | (exact ih ys h)
          | (exfalso; omega)
          | simp_all

theorem char_eq_of_toNat_eq (x y : Char) (h : x.toNat = y.toNat) : x = y := by
  have hx := Char.ofNat_toNat x
  have hy := Char.ofNat_toNat y
  rw [← hx, ← hy, h]

theorem charListLt_conn (a b : List Char) (hab : charListLt a b = false)
    (hba : charListLt b a = false) : a = b := by
  induction a generalizing b with
  | nil =>
    cases b with
    | nil => rfl
    | cons y ys => simp [charListLt] at hab
  | cons x xs ih =>
    cases b with
    | nil => simp [charListLt] at hba
    | cons y ys =>
      simp only [charListLt] at hab hba
      split_ifs at hab hba with h1 h2 <;>
        first
          | (have hxy : x = y := char_eq_of_toNat_eq x y (by omega)
             rw [hxy, ih ys hab hba])
          | simp_all

theorem pyStrLe_total (a b : String) :
    pyStrLe a b = true ∨ pyStrLe b a = true := by
  unfold pyStrLe
  cases h : charListLt b.data a.data
  · simp
  · right
    simp [charListLt_asymm _ _ h]

theorem pyStrLe_trans (a b c : String) (h1 : pyStrLe a b = true)
    (h2 : pyStrLe b c = true) : pyStrLe a c = true := by
  unfold pyStrLe at h1 h2 ⊢
  simp only [Bool.not_eq_true'] at h1 h2 ⊢
  exact charListLt_le_trans a.data b.data c.data h1 h2

theorem pyStrLe_antisymm (a b : String) (h1 : pyStrLe a b = true)
    (h2 : pyStrLe b a = true) : a = b := by
  unfold pyStrLe at h1 h2
  simp only [Bool.not_eq_true'] at h1 h2
  exact congrArg String.mk (charListLt_conn a.data b.data h2 h1)

theorem pyStrLt_of_le_of_ne (a b : String) (h1 : pyStrLe a b = true)
    (h2 : a ≠ b) : pyStrLt a b = true := by
  unfold pyStrLe at h1
  unfold pyStrLt
  simp only [Bool.not_eq_true'] at h1
  cases h : charListLt a.data b.data
  · exact absurd (congrArg String.mk (charListLt_conn a.data b.data h h1)) h2
  · rfl

instance : IsTotal (String × DayAcc) (fun p q => pyStrLe p.1 q.1 = true) :=
  ⟨fun p q => pyStrLe_total p.1 q.1⟩

instance : IsTrans (String × DayAcc) (fun p q => pyStrLe p.1 q.1 = true) :=
  ⟨fun p q r => pyStrLe_trans p.1 q.1 r.1⟩

/-! ## Characterization of the day grouping -/

theorem mem_datesOf (l : List ActTree) (ds : String) :
    ds ∈ datesOf l ↔ ds ≠ "" ∧ ∃ t ∈ l, actDate t = ds := by
  unfold datesOf
  rw [mem_seenDedup]
  simp only [List.mem_filter, List.mem_map, decide_eq_true_eq, ne_eq]
  constructor
  · rintro ⟨⟨t, ht, rfl⟩, hne⟩
    exact ⟨hne, t, ht, rfl⟩
  · rintro ⟨hne, t, ht, rfl⟩
    exact ⟨⟨t, ht, rfl⟩, hne⟩

theorem datesOf_nodup (l : List ActTree) : (datesOf l).Nodup :=
  seenDedup_nodup _

theorem ne_empty_of_mem_datesOf {l : List ActTree} {ds : String}
    (h : ds ∈ datesOf l) : ds ≠ "" := ((mem_datesOf l ds).mp h).1

theorem datesOf_append_singleton (l : List ActTree) (t : ActTree) :
    datesOf (l ++ [t]) =
      if actDate t = "" then datesOf l
      else if actDate t ∈ datesOf l then datesOf l else datesOf l ++ [actDate t] := by
  unfold datesOf
  rw [List.map_append, List.filter_append]
  by_cases he : actDate t = ""
  · simp [he]
  · simp only [List.map_cons, List.map_nil, List.filter_cons, List.filter_nil, he,
      decide_eq_true_eq, ne_eq, not_false_iff, if_true, decide_True]
    rw [seenDedup_append_singleton]
    have : (actDate t ∈ seenDedup ((l.map actDate).filter (fun ds => ds ≠ ""))) ↔
        (actDate t ∈ datesOf l) := Iff.rfl
    by_cases hm : actDate t ∈ datesOf l <;> simp [hm, this]

theorem fiberActs_append_singleton (l : List ActTree) (t : ActTree) (ds : String) :
    fiberActs (l ++ [t]) ds =
      fiberActs l ds ++
        (if actDate t = ds then [transform_activity_to_frontend_format t.core] else []) := by
  unfold fiberActs
  rw [List.filter_append, List.map_append]
  by_cases h : actDate t = ds <;> simp [List.filter_cons, h]

theorem find?_isSome_of_mem_datesOf {l : List ActTree} {ds : String}
    (h : ds ∈ datesOf l) :
    (l.find? (fun u => actDate u = ds)).isSome := by
  obtain ⟨-, t, ht, hdt⟩ := (mem_datesOf l ds).mp h
  rw [List.find?_isSome]
  exact ⟨t, ht, by simp [hdt]⟩

theorem find?_eq_none_of_not_mem_datesOf {l : List ActTree} {ds : String}
    (hne : ds ≠ "") (h : ds ∉ datesOf l) :
    l.find? (fun u => actDate u = ds) = none := by
  rw [List.find?_eq_none]
  intro t ht hdt
  simp only [decide_eq_true_eq] at hdt
  exact h ((mem_datesOf l ds).mpr ⟨hne, t, ht, hdt⟩)

theorem fiberActs_eq_nil_of_not_mem_datesOf {l : List ActTree} {ds : String}
    (hne : ds ≠ "") (h : ds ∉ datesOf l) : fiberActs l ds = [] := by
  unfold fiberActs
  rw [List.map_eq_nil, List.filter_eq_nil]
  intro t ht hdt
  simp only [decide_eq_true_eq] at hdt
  exact h ((mem_datesOf l ds).mpr ⟨hne, t, ht, hdt⟩)

theorem firstLoc_append_of_mem {l : List ActTree} {ds : String} (t : ActTree)
    (h : ds ∈ datesOf l) : firstLoc (l ++ [t]) ds = firstLoc l ds := by
  unfold firstLoc
  rw [List.find?_append, Option.or_of_isSome (find?_isSome_of_mem_datesOf h)]

theorem firstLoc_append_new {l : List ActTree} {t : ActTree}
    (hne : actDate t ≠ "") (h : actDate t ∉ datesOf l) :
    firstLoc (l ++ [t]) (actDate t) = t.core.start_location := by
  unfold firstLoc
  rw [List.find?_append, find?_eq_none_of_not_mem_datesOf hne h]
  simp [List.find?]

theorem pushAct_map_mem (dates : List String) (f : String → DayAcc)
    (e : String) (c : ActCore) (hnd : dates.Nodup) (he : e ∈ dates) :
    pushAct (dates.map fun ds => (ds, f ds)) e c =
      dates.map fun ds =>
        (ds, if ds = e then
          { f ds with activities :=
              (f ds).activities ++ [transform_activity_to_frontend_format c] }
        else f ds) := by
  induction dates with
  | nil => cases he
  | cons d dates ih =>
    simp only [List.map_cons, pushAct]
    by_cases hd : d = e
    · subst hd
      rw [if_pos rfl]
      simp only [if_pos rfl]
      congr 1
      apply List.map_eq_map_iff.mpr
      intro ds hds
      have : ds ≠ d := fun hdd => (List.nodup_cons.mp hnd).1 (hdd ▸ hds)
      simp [this]
    · rw [if_neg hd, if_neg hd]
      have he' : e ∈ dates := by
        rcases List.mem_cons.mp he with h | h
        · exact absurd h.symm hd
        · exact h
      rw [ih (List.nodup_cons.mp hnd).2 he']

theorem pushAct_map_not_mem (dates : List String) (f : String → DayAcc)
    (e : String) (c : ActCore) (he : e ∉ dates) :
    pushAct (dates.map fun ds => (ds, f ds)) e c =
      (dates.map fun ds => (ds, f ds)) ++
        [(e, ⟨e, c.start_location, [transform_activity_to_frontend_format c]⟩)] := by
  induction dates with
  | nil => rfl
  | cons d dates ih =>
    have hd : d ≠ e := fun hde => he (hde ▸ List.mem_cons_self d dates)
    simp only [List.map_cons, pushAct, if_neg hd, List.cons_append]
    rw [ih (fun h => he (List.mem_cons_of_mem d h))]

theorem groupByDate_eq_groupSpec (l : List ActTree) :
    groupByDate l = groupSpec l := by
  induction l using List.reverseRecOn with
  | nil => rfl
  | append_singleton l t ih =>
    unfold groupByDate at ih ⊢
    rw [List.foldl_append]
    simp only [List.foldl_cons, List.foldl_nil]
    rw [ih]
    by_cases he : actDate t = ""
    · rw [if_pos (by exact he)]
      unfold groupSpec
      rw [datesOf_append_singleton, if_pos he]
      apply List.map_eq_map_iff.mpr
      intro ds hds
      have hdne : ds ≠ actDate t := fun h =>
        ne_empty_of_mem_datesOf hds (h.trans he)
      rw [fiberActs_append_singleton, if_neg (fun h => hdne h.symm),
        List.append_nil, firstLoc_append_of_mem t hds]
    · rw [if_neg (by exact he)]
      by_cases hm : actDate t ∈ datesOf l
      · unfold groupSpec
        rw [show extract_date t.core.from_date_time = actDate t from rfl]
        rw [pushAct_map_mem _ _ _ _ (datesOf_nodup l) hm,
          datesOf_append_singleton, if_neg he, if_pos hm]
        apply List.map_eq_map_iff.mpr
        intro ds hds
        by_cases hde : ds = actDate t
        · subst hde
          rw [if_pos rfl, fiberActs_append_singleton, if_pos rfl,
            firstLoc_append_of_mem t hds]
        · rw [if_neg hde, fiberActs_append_singleton,
            if_neg (fun h => hde h.symm), List.append_nil,
            firstLoc_append_of_mem t hds]
      · unfold groupSpec
        rw [show extract_date t.core.from_date_time = actDate t from rfl]
        rw [pushAct_map_not_mem _ _ _ _ hm,
          datesOf_append_singleton, if_neg he, if_neg hm, List.map_append]
        congr 1
        · apply List.map_eq_map_iff.mpr
          intro ds hds
          have hde : ds ≠ actDate t := fun h => hm (h ▸ hds)
          rw [fiberActs_append_singleton, if_neg (fun h => hde h.symm),
            List.append_nil, firstLoc_append_of_mem t hds]
        · simp only [List.map_cons, List.map_nil]
          rw [fiberActs_append_singleton, if_pos rfl,
            fiberActs_eq_nil_of_not_mem_datesOf he hm, List.nil_append,
            firstLoc_append_new he hm]

/-! ## Structure of `transform_trip_to_days` -/

theorem transform_trip_to_days_eq (trip : TripData) :
    transform_trip_to_days trip =
      (sortDays (groupSpec (flatten_activities trip.activities))).enum.map fun p =>
        ⟨p.1 + 1, p.2.2.date, p.2.2.location,
         "Day " ++ toString (p.1 + 1) ++ " in " ++ p.2.2.location, p.2.2.activities⟩ := by
  unfold transform_trip_to_days
  by_cases h : trip.activities.isEmpty = true
  · rw [if_pos h]
    have he : trip.activities = [] := by simpa using h
    rw [he]
    rfl
  · rw [if_neg h]
    simp only [groupByDate_eq_groupSpec]

theorem sortDays_entry_spec {l : List ActTree} {q : String × DayAcc}
    (hq : q ∈ sortDays (groupSpec l)) :
    q.1 ∈ datesOf l ∧ q.2 = ⟨q.1, firstLoc l q.1, fiberActs l q.1⟩ := by
  have h3 : q ∈ groupSpec l := ((List.perm_insertionSort _ _).mem_iff).mp hq
  obtain ⟨ds, hds, heq⟩ := List.mem_map.mp h3
  cases heq
  exact ⟨hds, rfl⟩

theorem groupSpec_map_fst (l : List ActTree) :
    (groupSpec l).map (·.1) = datesOf l := by
  unfold groupSpec
  rw [List.map_map]
  exact List.map_id _

theorem days_map_date (trip : TripData) :
    (transform_trip_to_days trip).map (·.date) =
      (sortDays (groupSpec (flatten_activities trip.activities))).map (·.1) := by
  rw [transform_trip_to_days_eq, List.map_map]
  trans ((sortDays (groupSpec (flatten_activities trip.activities))).enum.map
    ((fun e : String × DayAcc => e.2.date) ∘ Prod.snd))
  · exact List.map_eq_map_iff.mpr (fun p _ => rfl)
  rw [← List.map_map, List.enum_map_snd]
  apply List.map_eq_map_iff.mpr
  intro q hq
  rw [(sortDays_entry_spec hq).2]

theorem days_map_id (trip : TripData) :
    (transform_trip_to_days trip).map (·.id) =
      List.range' 1 (transform_trip_to_days trip).length := by
  rw [transform_trip_to_days_eq, List.map_map, List.length_map, List.enum_length]
  trans ((sortDays (groupSpec (flatten_activities trip.activities))).enum.map
    ((· + 1) ∘ Prod.fst))
  · exact List.map_eq_map_iff.mpr (fun p _ => rfl)
  rw [← List.map_map, List.enum_map_fst, List.range'_eq_map_range]
  apply List.map_eq_map_iff.mpr
  intro i _
  omega

theorem days_pairwise_date (trip : TripData) :
    (transform_trip_to_days trip).Pairwise
      (fun d e => pyStrLt d.date e.date = true) := by
  have hmap : ((transform_trip_to_days trip).map (fun d => d.date)).Pairwise
      (fun a b => pyStrLt a b = true) := by
    rw [days_map_date, List.pairwise_map]
    set G := sortDays (groupSpec (flatten_activities trip.activities)) with hG
    have hsorted : G.Pairwise (fun p q => pyStrLe p.1 q.1 = true) :=
      List.sorted_insertionSort _ _
    have hnodup : (G.map (fun p => p.1)).Nodup := by
      have hperm : List.Perm (G.map (fun p => p.1))
          ((groupSpec (flatten_activities trip.activities)).map (fun p => p.1)) :=
        (List.perm_insertionSort _ _).map _
      rw [hperm.nodup_iff]
      have := groupSpec_map_fst (flatten_activities trip.activities)
      rw [show ((groupSpec (flatten_activities trip.activities)).map fun p => p.1) =
        datesOf (flatten_activities trip.activities) from this]
      exact datesOf_nodup _
    have hne : G.Pairwise (fun p q => p.1 ≠ q.1) := List.pairwise_map.mp hnodup
    exact (hsorted.and hne).imp (fun h => pyStrLt_of_le_of_ne _ _ h.1 h.2)
  exact List.pairwise_map.mp hmap

theorem days_map_date_perm (trip : TripData) :
    List.Perm ((transform_trip_to_days trip).map (fun d => d.date))
      (datesOf (flatten_activities trip.activities)) := by
  rw [days_map_date]
  have hperm : List.Perm
      ((sortDays (groupSpec (flatten_activities trip.activities))).map (fun p => p.1))
      ((groupSpec (flatten_activities trip.activities)).map (fun p => p.1)) :=
    (List.perm_insertionSort _ _).map _
  rw [groupSpec_map_fst] at hperm
  exact hperm

theorem mem_days_spec {trip : TripData} {d : DayOut}
    (hd : d ∈ transform_trip_to_days trip) :
    d.date ∈ datesOf (flatten_activities trip.activities) ∧
      d.activities = fiberActs (flatten_activities trip.activities) d.date ∧
      d.location = firstLoc (flatten_activities trip.activities) d.date := by
  rw [transform_trip_to_days_eq] at hd
  obtain ⟨p, hp, rfl⟩ := List.mem_map.mp hd
  have h2 : p.2 ∈ sortDays (groupSpec (flatten_activities trip.activities)) :=
    List.snd_mem_of_mem_enum hp
  obtain ⟨h3, h4⟩ := sortDays_entry_spec h2
  obtain ⟨i, ds, acc⟩ := p
  simp only at h3 h4
  subst h4
  exact ⟨h3, rfl, rfl⟩

theorem date_mem_days {trip : TripData} {ds : String}
    (hds : ds ∈ datesOf (flatten_activities trip.activities)) :
    ∃ d ∈ transform_trip_to_days trip, d.date = ds ∧
      d.activities = fiberActs (flatten_activities trip.activities) ds := by
  rw [transform_trip_to_days_eq]
  set G := sortDays (groupSpec (flatten_activities trip.activities)) with hG
  have h1 : (ds, (⟨ds, firstLoc (flatten_activities trip.activities) ds,
      fiberActs (flatten_activities trip.activities) ds⟩ : DayAcc)) ∈
      groupSpec (flatten_activities trip.activities) :=
    List.mem_map_of_mem _ hds
  have h2 : (ds, (⟨ds, firstLoc (flatten_activities trip.activities) ds,
      fiberActs (flatten_activities trip.activities) ds⟩ : DayAcc)) ∈ G :=
    ((List.perm_insertionSort _ _).mem_iff).mpr h1
  obtain ⟨i, hi, hgi⟩ := List.mem_iff_getElem.mp h2
  have hie : i < G.enum.length := by rwa [List.enum_length]
  have hmem : G.enum[i] ∈ G.enum := List.getElem_mem hie
  rw [List.getElem_enum] at hmem
  refine ⟨_, List.mem_map_of_mem _ hmem, ?_, ?_⟩ <;> rw [hgi]

/-- The transform passes `from_date_time` through unchanged. -/
theorem transform_from_date_time (c : ActCore) :
    (transform_activity_to_frontend_format c).from_date_time = c.from_date_time := rfl

/-- An activity with an empty extracted date cannot appear in any date
fiber: the transform preserves `from_date_time`, on which the extracted
date depends. -/
theorem not_mem_fiberActs_of_empty_date {l : List ActTree} {a : ActTree}
    (ha : actDate a = "") {ds : String} (hds : ds ≠ "") :
    transform_activity_to_frontend_format a.core ∉ fiberActs l ds := by
  intro hmem
  obtain ⟨t, ht, heq⟩ := List.mem_map.mp hmem
  have ht2 := (List.mem_filter.mp ht).2
  simp only [decide_eq_true_eq] at ht2
  have hfrom : t.core.from_date_time = a.core.from_date_time :=
    congrArg (fun f => f.from_date_time) heq
  have : actDate t = actDate a := by
    unfold actDate
    rw [hfrom]
  rw [ht2, ha] at this
  exact hds this

/-! ## Characterization of the vote tallies -/

theorem mem_optIDs (ps : List (String × Bool)) (o : String) :
    o ∈ optIDs ps ↔ ∃ p ∈ ps, p.1 = o := by
  unfold optIDs
  rw [mem_seenDedup]
  exact List.mem_map

theorem optIDs_nodup (ps : List (String × Bool)) : (optIDs ps).Nodup :=
  seenDedup_nodup _

theorem optIDs_append_singleton (ps : List (String × Bool)) (p : String × Bool) :
    optIDs (ps ++ [p]) =
      if p.1 ∈ optIDs ps then optIDs ps else optIDs ps ++ [p.1] := by
  unfold optIDs
  rw [List.map_append, List.map_cons, List.map_nil, seenDedup_append_singleton]

theorem pushVoteTally_map_mem (os : List String) (f : String → Tally)
    (o : String) (v : Bool) (hnd : os.Nodup) (ho : o ∈ os) :
    pushVoteTally (os.map fun x => (x, f x)) o v =
      os.map fun x =>
        (x, if x = o then
          (if v then ⟨(f x).up + 1, (f x).down⟩ else ⟨(f x).up, (f x).down + 1⟩)
        else f x) := by
  induction os with
  | nil => cases ho
  | cons d os ih =>
    simp only [List.map_cons, pushVoteTally]
    by_cases hd : d = o
    · subst hd
      rw [if_pos rfl]
      simp only [if_pos rfl]
      congr 1
      apply List.map_eq_map_iff.mpr
      intro x hx
      have : x ≠ d := fun hdd => (List.nodup_cons.mp hnd).1 (hdd ▸ hx)
      simp [this]
    · rw [if_neg hd, if_neg hd]
      have ho' : o ∈ os := by
        rcases List.mem_cons.mp ho with h | h
        · exact absurd h.symm hd
        · exact h
      rw [ih (List.nodup_cons.mp hnd).2 ho']

theorem pushVoteTally_map_not_mem (os : List String) (f : String → Tally)
    (o : String) (v : Bool) (ho : o ∉ os) :
    pushVoteTally (os.map fun x => (x, f x)) o v =
      (os.map fun x => (x, f x)) ++ [(o, if v then ⟨1, 0⟩ else ⟨0, 1⟩)] := by
  induction os with
  | nil => rfl
  | cons d os ih =>
    have hd : d ≠ o := fun hde => ho (hde ▸ List.mem_cons_self d os)
    simp only [List.map_cons, pushVoteTally, if_neg hd, List.cons_append]
    rw [ih (fun h => ho (List.mem_cons_of_mem d h))]

theorem countP_eq_zero_of_not_mem_optIDs (ps : List (String × Bool))
    (o : String) (q : String × Bool → Bool) (ho : o ∉ optIDs ps)
    (hq : ∀ p, q p = true → p.1 = o) : ps.countP q = 0 := by
  rw [List.countP_eq_zero]
  intro p hp hqp
  exact ho ((mem_optIDs ps o).mpr ⟨p, hp, hq p hqp⟩)

theorem tallyPairs_eq_tallySpec (ps : List (String × Bool)) :
    tallyPairs ps = tallySpec ps := by
  induction ps using List.reverseRecOn with
  | nil => rfl
  | append_singleton ps p ih =>
    unfold tallyPairs at ih ⊢
    rw [List.foldl_append]
    simp only [List.foldl_cons, List.foldl_nil]
    rw [ih]
    unfold tallySpec
    by_cases hm : p.1 ∈ optIDs ps
    · rw [pushVoteTally_map_mem _ _ _ _ (optIDs_nodup ps) hm,
        optIDs_append_singleton, if_pos hm]
      apply List.map_eq_map_iff.mpr
      intro o ho
      simp only [List.countP_append, List.countP_cons, List.countP_nil]
      by_cases hop : o = p.1
      · subst hop
        rw [if_pos rfl]
        cases hv : p.2 <;> simp [hv]
      · rw [if_neg hop]
        have hne : p.1 ≠ o := fun h => hop h.symm
        have h1 : (decide (p.1 = o) && p.2) = false := by simp [hne]
        have h2 : (decide (p.1 = o) && !p.2) = false := by simp [hne]
        simp [h1, h2]
    · rw [pushVoteTally_map_not_mem _ _ _ _ hm,
        optIDs_append_singleton, if_neg hm, List.map_append]
      congr 1
      · apply List.map_eq_map_iff.mpr
        intro o ho
        have hop : o ≠ p.1 := fun h => hm (h ▸ ho)
        simp only [List.countP_append, List.countP_cons, List.countP_nil]
        have hne : p.1 ≠ o := fun h => hop h.symm
        have h1 : (decide (p.1 = o) && p.2) = false := by simp [hne]
        have h2 : (decide (p.1 = o) && !p.2) = false := by simp [hne]
        simp [h1, h2]
      · simp only [List.map_cons, List.map_nil]
        have hcu : ps.countP (fun q => decide (q.1 = p.1) && q.2) = 0 :=
          countP_eq_zero_of_not_mem_optIDs ps p.1 _ hm
            (fun q hq => by
              simp only [Bool.and_eq_true, decide_eq_true_eq] at hq
              exact hq.1)
        have hcd : ps.countP (fun q => decide (q.1 = p.1) && !q.2) = 0 :=
          countP_eq_zero_of_not_mem_optIDs ps p.1 _ hm
            (fun q hq => by
              simp only [Bool.and_eq_true, decide_eq_true_eq] at hq
              exact hq.1)
        simp only [List.countP_append, List.countP_cons, List.countP_nil, hcu, hcd]
        cases hv : p.2 <;> simp [hv]

/-! ## Vote store lemmas -/

theorem keyEq_update_iff (r : VoteRec) (k : VoteKey) (v : Bool) :
    ({ r with vote := v } : VoteRec).keyEq k ↔ r.keyEq k := Iff.rfl

theorem voteKey_eq_of_keyEq {r : VoteRec} {k k' : VoteKey}
    (h1 : r.keyEq k) (h2 : r.keyEq k') : k = k' := by
  obtain ⟨a1, b1, c1, d1⟩ := h1
  obtain ⟨a2, b2, c2, d2⟩ := h2
  cases k
  cases k'
  simp_all

theorem mkVote_keyEq (k k' : VoteKey) (v : Bool) :
    (mkVote k v).keyEq k' ↔ k = k' := by
  unfold mkVote VoteRec.keyEq
  cases k
  cases k'
  simp [VoteKey.mk.injEq]

theorem countKey_updateFirst (s : List VoteRec) (k : VoteKey) (v : Bool)
    (k' : VoteKey) : countKey k' (updateFirst s k v) = countKey k' s := by
  induction s with
  | nil => rfl
  | cons r s ih =>
    unfold countKey at ih ⊢
    rw [updateFirst]
    by_cases h : r.keyEq k
    · rw [if_pos h, List.countP_cons, List.countP_cons]
      rfl
    · rw [if_neg h, List.countP_cons, List.countP_cons, ih]

theorem length_updateFirst (s : List VoteRec) (k : VoteKey) (v : Bool) :
    (updateFirst s k v).length = s.length := by
  induction s with
  | nil => rfl
  | cons r s ih =>
    rw [updateFirst]
    by_cases h : r.keyEq k
    · rw [if_pos h, List.length_cons, List.length_cons]
    · rw [if_neg h, List.length_cons, List.length_cons, ih]

theorem countKey_eq_zero_iff_find?_eq_none (s : List VoteRec) (k : VoteKey) :
    countKey k s = 0 ↔ s.find? (fun r => decide (r.keyEq k)) = none := by
  unfold countKey
  simp only [List.countP_eq_zero, List.find?_eq_none]

theorem countKey_append_singleton (s : List VoteRec) (r : VoteRec) (k : VoteKey) :
    countKey k (s ++ [r]) = countKey k s + (if r.keyEq k then 1 else 0) := by
  unfold countKey
  rw [List.countP_append, List.countP_cons, List.countP_nil]
  by_cases h : r.keyEq k <;> simp [h]

theorem countP_eraseP_of_pos {α : Type} (p : α → Bool) (l : List α)
    (h : 0 < l.countP p) : (l.eraseP p).countP p = l.countP p - 1 := by
  induction l with
  | nil => simp at h
  | cons a l ih =>
    by_cases ha : p a
    · rw [List.eraseP_cons_of_pos ha, List.countP_cons]
      simp [ha]
    · rw [List.eraseP_cons_of_neg (by simpa using ha), List.countP_cons,
        List.countP_cons]
      have h' : 0 < l.countP p := by
        rw [List.countP_cons] at h
        simpa [ha] using h
      rw [ih h']
      simp [ha]

theorem countP_eraseP_of_disjoint {α : Type} (p q : α → Bool) (l : List α)
    (hpq : ∀ x, p x = true → q x = false) :
    (l.eraseP p).countP q = l.countP q := by
  induction l with
  | nil => rfl
  | cons a l ih =>
    by_cases ha : p a
    · rw [List.eraseP_cons_of_pos ha, List.countP_cons]
      simp [hpq a ha]
    · rw [List.eraseP_cons_of_neg (by simpa using ha), List.countP_cons,
        List.countP_cons, ih]

/-- A cast for key `k` does not touch the records of any other key. -/
theorem countKey_cast_vote_other (s : List VoteRec) (k : VoteKey) (v : Bool)
    (k' : VoteKey) (hne : k' ≠ k) :
    countKey k' (cast_vote s k v).2 = countKey k' s := by
  unfold cast_vote
  cases hf : s.find? (fun r => decide (r.keyEq k)) with
  | none =>
    simp only
    rw [countKey_append_singleton]
    have : ¬ (mkVote k v).keyEq k' := fun h =>
      hne (((mkVote_keyEq k k' v).mp h).symm)
    simp [this]
  | some ex =>
    by_cases hv : ex.vote = v
    · simp only [if_pos hv]
      unfold countKey
      apply countP_eraseP_of_disjoint
      intro r hr
      simp only [decide_eq_true_eq] at hr ⊢
      simp only [decide_eq_false_iff_not]
      intro hr'
      exact hne (voteKey_eq_of_keyEq hr' hr)
    · simp only [if_neg hv]
      exact countKey_updateFirst s k v k'

/-- A cast for key `k` keeps at most one record for `k`. -/
theorem countKey_cast_vote_self (s : List VoteRec) (k : VoteKey) (v : Bool)
    (h : countKey k s ≤ 1) : countKey k (cast_vote s k v).2 ≤ 1 := by
  unfold cast_vote
  cases hf : s.find? (fun r => decide (r.keyEq k)) with
  | none =>
    simp only
    rw [countKey_append_singleton]
    have h0 : countKey k s = 0 :=
      (countKey_eq_zero_iff_find?_eq_none s k).mpr hf
    simp [h0, mkVote_keyEq]
  | some ex =>
    by_cases hv : ex.vote = v
    · simp only [if_pos hv]
      have h1 : 0 < s.countP (fun r => decide (r.keyEq k)) := by
        by_contra hc
        have h0 : countKey k s = 0 := by unfold countKey; omega
        rw [(countKey_eq_zero_iff_find?_eq_none s k).mp h0] at hf
        cases hf
      have h2 := countP_eraseP_of_pos (fun r => decide (r.keyEq k)) s h1
      unfold countKey at h ⊢
      omega
    · simp only [if_neg hv]
      rw [countKey_updateFirst]
      exact h

/-- The single-key invariant is preserved across any sequence of casts. -/
theorem countKey_cast_votes (ops : List (VoteKey × Bool)) (s : List VoteRec)
    (k : VoteKey) (h : countKey k s ≤ 1) :
    countKey k (cast_votes ops s) ≤ 1 := by
  induction ops generalizing s with
  | nil => exact h
  | cons op ops ih =>
    unfold cast_votes at ih ⊢
    rw [List.foldl_cons]
    apply ih
    by_cases hk : k = op.1
    · subst hk
      exact countKey_cast_vote_self s op.1 op.2 h
    · rw [countKey_cast_vote_other s op.1 op.2 k hk]
      exact h

theorem find?_append_none {α : Type} (l1 l2 : List α) (p : α → Bool)
    (h : l1.find? p = none) : (l1 ++ l2).find? p = l2.find? p := by
  rw [List.find?_append, h, Option.none_or]

theorem find?_mkVote_singleton (k : VoteKey) (v : Bool) :
    [mkVote k v].find? (fun r => decide (r.keyEq k)) = some (mkVote k v) := by
  have : (mkVote k v).keyEq k := (mkVote_keyEq k k v).mpr rfl
  simp [List.find?, this]

theorem updateFirst_find? (s : List VoteRec) (k : VoteKey) (v : Bool)
    (ex : VoteRec) (h : s.find? (fun r => decide (r.keyEq k)) = some ex) :
    (updateFirst s k v).find? (fun r => decide (r.keyEq k)) =
      some { ex with vote := v } := by
  induction s with
  | nil => cases h
  | cons r s ih =>
    rw [updateFirst]
    by_cases hr : r.keyEq k
    · rw [if_pos hr]
      rw [List.find?_cons_of_pos _ (by simpa using hr)] at h
      cases h
      exact List.find?_cons_of_pos _ (by simpa using hr)
    · rw [if_neg hr]
      rw [List.find?_cons_of_neg _ (by simpa using hr)] at h
      rw [List.find?_cons_of_neg _ (by simpa using hr)]
      exact ih h

/-! ## Stability of the descending sort by net score -/

instance : IsTotal OptionAgg (fun a b => b.netScore ≤ a.netScore) :=
  ⟨fun a b => le_total b.netScore a.netScore⟩

instance : IsTrans OptionAgg (fun a b => b.netScore ≤ a.netScore) :=
  ⟨fun _ _ _ h1 h2 => le_trans h2 h1⟩

theorem filter_orderedInsert_net (x : OptionAgg) (l : List OptionAgg) (k : Int) :
    ((List.orderedInsert (fun a b => b.netScore ≤ a.netScore) x l).filter
      (fun a => decide (a.netScore = k))) =
      if x.netScore = k then
        x :: l.filter (fun a => decide (a.netScore = k))
      else l.filter (fun a => decide (a.netScore = k)) := by
  induction l with
  | nil =>
    by_cases hx : x.netScore = k <;>
      simp [List.orderedInsert, List.filter_cons, hx]
  | cons b l ih =>
    rw [List.orderedInsert]
    by_cases hr : b.netScore ≤ x.netScore
    · rw [if_pos hr]
      by_cases hx : x.netScore = k <;> simp [List.filter_cons, hx]
    · rw [if_neg hr]
      by_cases hx : x.netScore = k
      · have hbk : decide (b.netScore = k) = false := by
          simp only [decide_eq_false_iff_not]
          omega
        rw [if_pos hx, List.filter_cons, List.filter_cons, hbk]
        simp only [Bool.false_eq_true, if_false]
        rw [ih, if_pos hx]
      · rw [List.filter_cons, List.filter_cons, ih, if_neg hx, if_neg hx]

theorem filter_insertionSort_net (l : List OptionAgg) (k : Int) :
    ((l.insertionSort (fun a b => b.netScore ≤ a.netScore)).filter
      (fun a => decide (a.netScore = k))) =
      l.filter (fun a => decide (a.netScore = k)) := by
  induction l with
  | nil => rfl
  | cons a l ih =>
    rw [List.insertionSort, filter_orderedInsert_net, List.filter_cons]
    by_cases ha : a.netScore = k <;> simp [ha, ih]

/-! ## Shape of the hex digest -/

theorem leBytes_length (n k : Nat) : (leBytes n k).length = k := by
  induction k generalizing n with
  | zero => rfl
  | succ k ih =>
    rw [leBytes, List.length_cons, ih]

theorem md5Bytes_length (msg : List Nat) : (md5Bytes msg).length = 16 := by
  unfold md5Bytes
  simp [List.length_append, leBytes_length]

theorem md5_hexdigest_length (s : String) : (md5_hexdigest s).data.length = 32 := by
  show (((md5Bytes (utf8Bytes s)).map byteToHex).flatten).length = 32
  rw [List.length_flatten, List.map_map]
  have h1 : ((md5Bytes (utf8Bytes s)).map (List.length ∘ byteToHex)) =
      (md5Bytes (utf8Bytes s)).map (fun _ => 2) :=
    List.map_eq_map_iff.mpr (fun b _ => rfl)
  rw [h1, List.map_const', List.sum_replicate, md5Bytes_length]
  rfl

theorem getD_mem_or_default {α : Type} (l : List α) (i : Nat) (d : α) :
    l.getD i d ∈ l ∨ l.getD i d = d := by
  induction l generalizing i with
  | nil => right; rfl
  | cons a l ih =>
    cases i with
    | zero => left; exact List.mem_cons_self a l
    | succ i =>
      rcases ih i with h | h
      · left; exact List.mem_cons_of_mem a h
      · right; exact h

theorem md5_hexdigest_chars (s : String) (c : Char)
    (hc : c ∈ (md5_hexdigest s).data) : c ∈ hexDigitChars := by
  have hc' : c ∈ ((md5Bytes (utf8Bytes s)).map byteToHex).flatten := hc
  rw [List.mem_flatten] at hc'
  obtain ⟨chunk, hchunk, hcm⟩ := hc'
  obtain ⟨b, _, rfl⟩ := List.mem_map.mp hchunk
  unfold byteToHex at hcm
  rcases List.mem_cons.mp hcm with rfl | hcm2
  · rcases getD_mem_or_default hexDigitChars (b / 16) '0' with hm | hd
    · exact hm
    · rw [hd]
      decide
  · rcases List.mem_cons.mp hcm2 with rfl | hnil
    · rcases getD_mem_or_default hexDigitChars (b % 16) '0' with hm | hd
      · exact hm
      · rw [hd]
        decide
    · cases hnil

/-- The synthetic ID depends only on `(activity_id, activity_name, type,
location)` — descriptions, vigor and `start_location` are ignored. -/
theorem resolve_activity_id_congr (a b : SugAct)
    (hid : a.activity_id = b.activity_id)
    (hn : a.activity_name = b.activity_name) (ht : a.type = b.type)
    (hl : a.location = b.location) :
    resolve_activity_id a = resolve_activity_id b := by
  unfold resolve_activity_id
  rw [hid, hn, ht, hl]

/-! ## Claim theorems -/

/-- C10: every activity produced by the itinerary normalizer
(`transform_trip_to_days` via `transform_activity_to_frontend_format`)
has its vigor determined solely by its `activity_type` through the fixed
inference table — any vigor on the input is ignored (changing it does
not change the output at all) — and the output vigor is always `"low"`
or `"medium"`, never `"high"`. -/
theorem vigor_inference_invariant :
    (∀ (a : ActCore) (v : String),
      (transform_activity_to_frontend_format a).vigor =
        infer_vigor_from_type a.activity_type ∧
      transform_activity_to_frontend_format { a with vigor := v } =
        transform_activity_to_frontend_format a) ∧
    (∀ a : ActCore,
      ((transform_activity_to_frontend_format a).vigor = "low" ∨
        (transform_activity_to_frontend_format a).vigor = "medium") ∧
      (transform_activity_to_frontend_format a).vigor ≠ "high") ∧
    (∀ (trip : TripData) (d : DayOut) (fa : FrontAct),
      d ∈ transform_trip_to_days trip → fa ∈ d.activities →
      fa.vigor = "low" ∨ fa.vigor = "medium") := by
  have hlm : ∀ t : String,
      infer_vigor_from_type t = "low" ∨ infer_vigor_from_type t = "medium" := by
    intro t
    simp only [infer_vigor_from_type]
    split_ifs <;> simp
  refine ⟨fun a v => ⟨rfl, rfl⟩, fun a => ⟨hlm a.activity_type, ?_⟩,
    fun trip d fa hd hfa => ?_⟩
  · rcases hlm a.activity_type with h | h <;>
      · show infer_vigor_from_type a.activity_type ≠ "high"
        rw [h]
        decide
  · obtain ⟨-, hact, -⟩ := mem_days_spec hd
    rw [hact] at hfa
    obtain ⟨t, -, rfl⟩ := List.mem_map.mp hfa
    exact hlm t.core.activity_type

/-- C10 witness: the invariant applied to the one-activity trip
`exTripC10`, whose single day and single activity are explicit. -/
theorem vigor_inference_invariant_witness :
    (transform_activity_to_frontend_format
        (mkAct "a1" "2025-04-12T10:00:00Z" "Paris").core).vigor = "low" ∨
    (transform_activity_to_frontend_format
        (mkAct "a1" "2025-04-12T10:00:00Z" "Paris").core).vigor = "medium" :=
  vigor_inference_invariant.2.2 exTripC10 exDayC10 _
    (by rw [show transform_trip_to_days exTripC10 = [exDayC10] from rfl]
        exact List.mem_singleton.mpr rfl)
    (List.mem_singleton.mpr rfl)

/-- C9: ranking of aggregated options filters to strictly positive net
score, sorts descending by net score with ties in first-seen order
(characterized by: the untruncated sort is a permutation of the
filtered input, pairwise descending, and preserves the filtered input's
subsequence of entries at every fixed net score), and truncates to 10. -/
theorem rank_correct (l : List OptionAgg) :
    (∀ a ∈ top_ten_by_net_score l, 0 < a.netScore) ∧
    (top_ten_by_net_score l).Pairwise (fun a b => b.netScore ≤ a.netScore) ∧
    (top_ten_by_net_score l).length ≤ 10 ∧
    ∃ s : List OptionAgg,
      top_ten_by_net_score l = s.take 10 ∧
      List.Perm s (l.filter (fun a => decide (0 < a.netScore))) ∧
      s.Pairwise (fun a b => b.netScore ≤ a.netScore) ∧
      ∀ k : Int, s.filter (fun a => decide (a.netScore = k)) =
        (l.filter (fun a => decide (0 < a.netScore))).filter
          (fun a => decide (a.netScore = k)) := by
  refine ⟨?_, ?_, ?_,
    (l.filter (fun a => decide (0 < a.netScore))).insertionSort
      (fun a b => b.netScore ≤ a.netScore),
    ?_, List.perm_insertionSort _ _, List.sorted_insertionSort _ _,
    fun k => filter_insertionSort_net _ k⟩
  · intro a ha
    have h1 : a ∈ (l.filter (fun a => decide (0 < a.netScore))).insertionSort
        (fun a b => b.netScore ≤ a.netScore) :=
      (List.take_sublist 10 _).subset ha
    have h2 : a ∈ l.filter (fun a => decide (0 < a.netScore)) :=
      ((List.perm_insertionSort _ _).mem_iff).mp h1
    have := (List.mem_filter.mp h2).2
    simpa using this
  · exact (List.sorted_insertionSort _ _).sublist (List.take_sublist 10 _)
  · exact List.length_take_le 10 _
  · rfl

/-- C9 witness: the ranking at a concrete aggregate list. -/
theorem rank_correct_witness :
    0 < ((top_ten_by_net_score
      [⟨"a", 1, 0, 1⟩, ⟨"b", 3, 0, 3⟩, ⟨"c", 0, 1, -1⟩]).getD 0
        ⟨"", 0, 0, 0⟩).netScore :=
  (rank_correct [⟨"a", 1, 0, 1⟩, ⟨"b", 3, 0, 3⟩, ⟨"c", 0, 1, -1⟩]).1 _ (by decide)

/-- C5: grouping flat activities into days groups by the extracted date
of `from_date_time` preserving encounter order within a date (each
day's activities are exactly the transforms of the flattened activities
with that extracted date, in input order), sorts days strictly
ascending by date string, assigns ids `1..N` by sorted position, and on
the spec's three-activity scenario yields exactly the two days
`2025-04-12` (with the two 04-12 activities in original order) then
`2025-04-13`. -/
theorem group_by_day_correct :
    (∀ trip : TripData,
      ((transform_trip_to_days trip).map (fun d => d.id)) =
        List.range' 1 (transform_trip_to_days trip).length ∧
      (transform_trip_to_days trip).Pairwise
        (fun d e => pyStrLt d.date e.date = true) ∧
      List.Perm ((transform_trip_to_days trip).map (fun d => d.date))
        (datesOf (flatten_activities trip.activities)) ∧
      (∀ d ∈ transform_trip_to_days trip,
        d.activities = fiberActs (flatten_activities trip.activities) d.date)) ∧
    ((transform_trip_to_days exTripC5).map (fun d => (d.id, d.date)) =
        [(1, "2025-04-12"), (2, "2025-04-13")] ∧
      (transform_trip_to_days exTripC5).map
          (fun d => d.activities.map (fun fa => fa.activity_name)) =
        [["a1", "a2"], ["a3"]]) := by
  refine ⟨fun trip => ⟨days_map_id trip, days_pairwise_date trip,
    days_map_date_perm trip, fun d hd => (mem_days_spec hd).2.1⟩,
    by decide, by decide⟩

/-- C5 witness: the general grouping law applied to the one-activity
trip `exTripC10` and its explicit output day. -/
theorem group_by_day_correct_witness :
    exDayC10.activities =
      fiberActs (flatten_activities exTripC10.activities) exDayC10.date :=
  (group_by_day_correct.1 exTripC10).2.2.2 exDayC10
    (by rw [show transform_trip_to_days exTripC10 = [exDayC10] from rfl]
        exact List.mem_singleton.mpr rfl)

/-- C8 counterexample: the activity dated `"12T10:00"` provides only
two characters of date — fewer than 10 — yet it is **not** dropped: it
appears in a day with date `"12"`. -/
theorem short_date_kept_counterexample :
    "12T10:00".data.length < 10 ∧
    extract_date "12T10:00" = "12" ∧
    (transform_trip_to_days exTripC8).map (fun d => d.date) = ["12"] ∧
    (transform_trip_to_days exTripC8).map
        (fun d => d.activities.map (fun fa => fa.activity_name)) = [["a1"]] :=
  ⟨by decide, by decide, by decide, by decide⟩

/-- C8 (amended): the date is extracted supporting both `'T'`-separated
and space-separated timestamps; an activity is dropped from the day
grouping **exactly when the extracted date string is empty** — the
fewer-than-10-characters drop applies only to strings containing
neither `'T'` nor a space (a separator-bearing string keeps the prefix
before its first separator whatever its length). -/
theorem date_drop_amended :
    (∀ trip : TripData, ∀ a ∈ flatten_activities trip.activities,
      (actDate a = "" → ∀ d ∈ transform_trip_to_days trip,
        transform_activity_to_frontend_format a.core ∉ d.activities) ∧
      (actDate a ≠ "" → ∃ d ∈ transform_trip_to_days trip,
        d.date = actDate a ∧
        transform_activity_to_frontend_format a.core ∈ d.activities)) ∧
    (∀ s : String, ¬ s.data.contains 'T' = true → ¬ s.data.contains ' ' = true →
      s.data.length < 10 → extract_date s = "") ∧
    extract_date "2025-04-12T10:00:00Z" = "2025-04-12" ∧
    extract_date "2025-04-12 10:00:00" = "2025-04-12" := by
  refine ⟨fun trip a ha => ⟨fun hempty d hd hmem => ?_, fun hne => ?_⟩,
    fun s h1 h2 h3 => ?_, by decide, by decide⟩
  · obtain ⟨hdd, hact, -⟩ := mem_days_spec hd
    rw [hact] at hmem
    exact not_mem_fiberActs_of_empty_date hempty
      (ne_empty_of_mem_datesOf hdd) hmem
  · have hds : actDate a ∈ datesOf (flatten_activities trip.activities) :=
      (mem_datesOf _ _).mpr ⟨hne, a, ha, rfl⟩
    obtain ⟨d, hd, hdate, hacts⟩ := date_mem_days hds
    refine ⟨d, hd, hdate, ?_⟩
    rw [hacts]
    apply List.mem_map_of_mem
    rw [List.mem_filter]
    exact ⟨ha, by simp⟩
  · unfold extract_date
    rw [if_neg h1, if_neg h2, if_neg (by omega)]

/-- C8 witness: the amended drop rule applied to the concrete
separator-free short string `"abc"` and to the two supported
timestamp shapes. -/
theorem date_drop_amended_witness :
    extract_date "abc" = "" ∧ extract_date "2025-04-12T10:00:00Z" = "2025-04-12" :=
  ⟨date_drop_amended.2.1 "abc" (by decide) (by decide) (by decide),
   date_drop_amended.2.2.1⟩

/-- C1: starting from a state with no vote for a key, any sequential
sequence of casts leaves at most one vote record for that key; and the
duplicate-key recovery path updates the record that exists (preserving
the store's length and every key's record count, acting as `updated`)
rather than inserting a second one. -/
theorem single_vote_invariant :
    (∀ (s : List VoteRec) (k : VoteKey) (ops : List (VoteKey × Bool)),
      countKey k s = 0 → countKey k (cast_votes ops s) ≤ 1) ∧
    (∀ (s : List VoteRec) (k : VoteKey) (v : Bool),
      (duplicate_recovery s k v).2.length = s.length ∧
      (∀ k', countKey k' (duplicate_recovery s k v).2 = countKey k' s) ∧
      (∀ ex, s.find? (fun r => decide (r.keyEq k)) = some ex →
        (duplicate_recovery s k v).1 = some ⟨"updated", some v⟩ ∧
        (duplicate_recovery s k v).2 = updateFirst s k v)) := by
  constructor
  · intro s k ops h
    exact countKey_cast_votes ops s k (by omega)
  · intro s k v
    unfold duplicate_recovery
    cases hf : s.find? (fun r => decide (r.keyEq k)) with
    | none =>
      refine ⟨rfl, fun k' => rfl, fun ex hex => ?_⟩
      exact Option.noConfusion hex
    | some ex =>
      exact ⟨length_updateFirst s k v, fun k' => countKey_updateFirst s k v k',
        fun ex' _ => ⟨rfl, rfl⟩⟩

/-- C1 witness: the invariant at a concrete cast sequence from the
empty store, and the recovery path on a store already holding the key. -/
theorem single_vote_invariant_witness :
    countKey exKey (cast_votes [(exKey, true), (exKey, true), (exKey, false)] []) ≤ 1 ∧
    (duplicate_recovery [mkVote exKey true] exKey false).2.length = 1 :=
  ⟨single_vote_invariant.1 [] exKey [(exKey, true), (exKey, true), (exKey, false)]
      (by decide),
   (single_vote_invariant.2 [mkVote exKey true] exKey false).1⟩

/-- C2: the cast is a three-way toggle — no record for the key creates
one (`created`, returning the value), a record with the same value is
deleted (`removed`, returning null), a record with the opposite value
is updated in place (`updated`); consequently two identical casts from
a record-free state leave no record and a third recreates it. -/
theorem cast_vote_toggle (s : List VoteRec) (k : VoteKey) (v : Bool) :
    (countKey k s = 0 →
      cast_vote s k v = (⟨"created", some v⟩, s ++ [mkVote k v]) ∧
      countKey k (cast_vote s k v).2 = 1) ∧
    (∀ ex, s.find? (fun r => decide (r.keyEq k)) = some ex → ex.vote = v →
      cast_vote s k v =
        (⟨"removed", none⟩, s.eraseP (fun r => decide (r.keyEq k))) ∧
      (countKey k s = 1 → countKey k (cast_vote s k v).2 = 0)) ∧
    (∀ ex, s.find? (fun r => decide (r.keyEq k)) = some ex → ex.vote ≠ v →
      cast_vote s k v = (⟨"updated", some v⟩, updateFirst s k v) ∧
      countKey k (cast_vote s k v).2 = countKey k s ∧
      (cast_vote s k v).2.find? (fun r => decide (r.keyEq k)) =
        some { ex with vote := v }) ∧
    (countKey k s = 0 →
      countKey k (cast_votes [(k, v), (k, v)] s) = 0 ∧
      (cast_vote (cast_vote s k v).2 k v).1 = ⟨"removed", none⟩ ∧
      countKey k (cast_votes [(k, v), (k, v), (k, v)] s) = 1 ∧
      (cast_votes [(k, v), (k, v), (k, v)] s).find?
        (fun r => decide (r.keyEq k)) = some (mkVote k v)) := by
  have hcreate : ∀ t : List VoteRec, countKey k t = 0 →
      cast_vote t k v = (⟨"created", some v⟩, t ++ [mkVote k v]) := by
    intro t h0
    unfold cast_vote
    rw [(countKey_eq_zero_iff_find?_eq_none t k).mp h0]
  have hcreate_count : ∀ t : List VoteRec, countKey k t = 0 →
      countKey k (t ++ [mkVote k v]) = 1 := by
    intro t h0
    rw [countKey_append_singleton, h0,
      if_pos ((mkVote_keyEq k k v).mpr rfl)]
  have hremove : ∀ (t : List VoteRec) ex,
      t.find? (fun r => decide (r.keyEq k)) = some ex →
      ex.vote = v → cast_vote t k v =
        (⟨"removed", none⟩, t.eraseP (fun r => decide (r.keyEq k))) := by
    intro t ex hex hv
    unfold cast_vote
    rw [hex]
    simp [hv]
  have herase_count : ∀ t : List VoteRec, countKey k t = 1 →
      countKey k (t.eraseP (fun r => decide (r.keyEq k))) = 0 := by
    intro t h1
    unfold countKey at h1 ⊢
    have := countP_eraseP_of_pos (fun r => decide (r.keyEq k)) t (by omega)
    omega
  have hfind_append : ∀ t : List VoteRec, countKey k t = 0 →
      (t ++ [mkVote k v]).find? (fun r => decide (r.keyEq k)) =
        some (mkVote k v) := by
    intro t h0
    rw [find?_append_none _ _ _
      ((countKey_eq_zero_iff_find?_eq_none t k).mp h0)]
    exact find?_mkVote_singleton k v
  refine ⟨fun h0 => ⟨hcreate s h0, ?_⟩,
    fun ex hex hv => ⟨hremove s ex hex hv, ?_⟩,
    fun ex hex hv => ?_, fun h0 => ?_⟩
  · rw [hcreate s h0]
    exact hcreate_count s h0
  · intro h1
    rw [hremove s ex hex hv]
    exact herase_count s h1
  · have hupd : cast_vote s k v = (⟨"updated", some v⟩, updateFirst s k v) := by
      unfold cast_vote
      rw [hex]
      simp [hv]
    refine ⟨hupd, ?_, ?_⟩
    · rw [hupd]
      exact countKey_updateFirst s k v k
    · rw [hupd]
      exact updateFirst_find? s k v ex hex
  · -- the toggle chain from a record-free state
    have hs1 : (cast_vote s k v).2 = s ++ [mkVote k v] := by rw [hcreate s h0]
    have hc1 : countKey k (cast_vote s k v).2 = 1 := by
      rw [hs1]
      exact hcreate_count s h0
    have hf1 : (cast_vote s k v).2.find? (fun r => decide (r.keyEq k)) =
        some (mkVote k v) := by
      rw [hs1]
      exact hfind_append s h0
    have h2 := hremove (cast_vote s k v).2 (mkVote k v) hf1 rfl
    have hs2 : (cast_vote (cast_vote s k v).2 k v).2 =
        (cast_vote s k v).2.eraseP (fun r => decide (r.keyEq k)) := by
      rw [h2]
    have hc2 : countKey k (cast_vote (cast_vote s k v).2 k v).2 = 0 := by
      rw [hs2]
      exact herase_count _ hc1
    have hs3eq : cast_vote (cast_vote (cast_vote s k v).2 k v).2 k v =
        (⟨"created", some v⟩,
          (cast_vote (cast_vote s k v).2 k v).2 ++ [mkVote k v]) :=
      hcreate _ hc2
    refine ⟨hc2, ?_, ?_, ?_⟩
    · rw [h2]
    · show countKey k (cast_vote (cast_vote (cast_vote s k v).2 k v).2 k v).2 = 1
      rw [hs3eq]
      exact hcreate_count _ hc2
    · show (cast_vote (cast_vote (cast_vote s k v).2 k v).2 k v).2.find?
        (fun r => decide (r.keyEq k)) = some (mkVote k v)
      rw [hs3eq]
      exact hfind_append _ hc2

/-- C2 witness: the toggle chain at a concrete key from the empty
store — two identical casts leave no record, a third recreates it. -/
theorem cast_vote_toggle_witness :
    countKey exKey (cast_votes [(exKey, true), (exKey, true)] []) = 0 ∧
    countKey exKey (cast_votes [(exKey, true), (exKey, true), (exKey, true)] []) = 1 :=
  ⟨((cast_vote_toggle [] exKey true).2.2.2 (by decide)).1,
   ((cast_vote_toggle [] exKey true).2.2.2 (by decide)).2.2.1⟩

theorem countP_ext {α : Type} (l : List α) (p q : α → Bool)
    (h : ∀ a, p a = q a) : l.countP p = l.countP q := by
  rw [funext h]

/-- `finalize_polls`' per-option dict over `type_votes` is the plain
pair tally over the non-empty-ID records. -/
theorem tallyVotes_eq (votes : List VoteRec) :
    tallyVotes votes = tallyPairs
      ((votes.filter (fun v => decide (v.optionID ≠ ""))).map
        (fun v => (v.optionID, v.vote))) := by
  unfold tallyVotes tallyPairs
  rw [List.foldl_map,
    ← foldl_filter_if (fun v : VoteRec => decide (v.optionID ≠ ""))
      (fun acc v => pushVoteTally acc v.optionID v.vote) votes []]
  have hstep : (fun (acc : List (String × Tally)) (v : VoteRec) =>
      if v.optionID = "" then acc else pushVoteTally acc v.optionID v.vote) =
      (fun acc v => if decide (v.optionID ≠ "") = true then
        pushVoteTally acc v.optionID v.vote else acc) := by
    funext acc v
    by_cases h : v.optionID = "" <;> simp [h]
  rw [hstep]

/-- The overview's activity aggregation is the plain pair tally over
the `voteType == "activity"` records. -/
theorem overview_activity_votes_eq (votes : List VoteRec) :
    overview_activity_votes votes = tallyPairs
      ((votes.filter (fun v => decide (v.voteType = "activity"))).map
        (fun v => (v.optionID, v.vote))) := by
  unfold overview_activity_votes tallyPairs
  rw [List.foldl_map,
    ← foldl_filter_if (fun v : VoteRec => decide (v.voteType = "activity"))
      (fun acc v => pushVoteTally acc v.optionID v.vote) votes []]
  have hstep : (fun (acc : List (String × Tally)) (v : VoteRec) =>
      if v.voteType = "activity" then pushVoteTally acc v.optionID v.vote else acc) =
      (fun acc v => if decide (v.voteType = "activity") = true then
        pushVoteTally acc v.optionID v.vote else acc) := by
    funext acc v
    by_cases h : v.voteType = "activity" <;> simp [h]
  rw [hstep]

theorem tallySpec_map_fst (ps : List (String × Bool)) :
    (tallySpec ps).map (fun p => p.1) = optIDs ps := by
  unfold tallySpec
  rw [List.map_map]
  exact (List.map_eq_map_iff.mpr (fun o _ => rfl)).trans (List.map_id _)

/-- The aggregates carry each distinct non-empty option ID exactly
once, in first-seen order. -/
theorem aggregate_map_optionID (votes : List VoteRec) (pt : String) :
    (aggregate_poll_options votes pt).map (fun a => a.optionID) =
      optIDs (((votes.filter (fun v => decide (v.voteType = pt))).filter
        (fun v => decide (v.optionID ≠ ""))).map (fun v => (v.optionID, v.vote))) := by
  simp only [aggregate_poll_options]
  rw [List.map_map, tallyVotes_eq, tallyPairs_eq_tallySpec, ← tallySpec_map_fst]
  exact List.map_eq_map_iff.mpr (fun p _ => rfl)

/-- The tally holds, for each distinct option, the counts of its `true`
and `false` votes. -/
theorem tallyPairs_count_entry (ps : List (String × Bool)) (o : String)
    (ho : o ∈ optIDs ps) :
    (o, (⟨ps.countP (fun p => decide (p.1 = o) && p.2),
      ps.countP (fun p => decide (p.1 = o) && !p.2)⟩ : Tally)) ∈ tallyPairs ps := by
  rw [tallyPairs_eq_tallySpec]
  exact List.mem_map_of_mem _ ho

/-- C3: for every vote set and every option appearing in it, the
aggregation (`finalize_polls`, and likewise the overview's activity
aggregation) produces exactly one aggregate whose upvotes count the
`vote=true` records for that option, whose downvotes count the
`vote=false` records, with `netScore = upvotes - downvotes` and
`upvotes + downvotes` equal to the option's total number of votes. The
`finalize_polls` fold skips records with an empty `optionID` (such
records cannot be created by the vote endpoints, which reject falsy
IDs), hence the `o ≠ ""` hypothesis on that part. -/
theorem aggregation_correct (votes : List VoteRec) (poll_type : String) (o : String) :
    ((aggregate_poll_options votes poll_type).map (fun a => a.optionID)).Nodup ∧
    (o ≠ "" → (∃ v ∈ votes, v.voteType = poll_type ∧ v.optionID = o) →
      ∃ agg ∈ aggregate_poll_options votes poll_type,
        agg.optionID = o ∧
        agg.upvotes = votes.countP
          (fun v => decide (v.voteType = poll_type) && decide (v.optionID = o) && v.vote) ∧
        agg.downvotes = votes.countP
          (fun v => decide (v.voteType = poll_type) && decide (v.optionID = o) && !v.vote) ∧
        agg.netScore = (agg.upvotes : Int) - (agg.downvotes : Int) ∧
        agg.upvotes + agg.downvotes = votes.countP
          (fun v => decide (v.voteType = poll_type) && decide (v.optionID = o))) ∧
    ((∃ v ∈ votes, v.voteType = "activity" ∧ v.optionID = o) →
      ∃ e ∈ overview_activity_votes votes,
        e.1 = o ∧
        e.2.up = votes.countP
          (fun v => decide (v.voteType = "activity") && decide (v.optionID = o) && v.vote) ∧
        e.2.down = votes.countP
          (fun v => decide (v.voteType = "activity") && decide (v.optionID = o) && !v.vote) ∧
        e.2.up + e.2.down = votes.countP
          (fun v => decide (v.voteType = "activity") && decide (v.optionID = o))) := by
  refine ⟨?_, fun hne hex => ?_, fun hex => ?_⟩
  · rw [aggregate_map_optionID]
    exact optIDs_nodup _
  · obtain ⟨v, hv, hvt, hvo⟩ := hex
    have hvmem : v ∈ (votes.filter
        (fun v => decide (v.voteType = poll_type))).filter
        (fun v => decide (v.optionID ≠ "")) := by
      rw [List.mem_filter, List.mem_filter]
      exact ⟨⟨hv, by simp [hvt]⟩, by simp [hvo, hne]⟩
    have ho : o ∈ optIDs (((votes.filter
        (fun v => decide (v.voteType = poll_type))).filter
        (fun v => decide (v.optionID ≠ ""))).map (fun v => (v.optionID, v.vote))) :=
      (mem_optIDs _ o).mpr ⟨(v.optionID, v.vote),
        List.mem_map_of_mem _ hvmem, hvo⟩
    have hentry := tallyPairs_count_entry _ o ho
    have hcu : (((votes.filter (fun v => decide (v.voteType = poll_type))).filter
        (fun v => decide (v.optionID ≠ ""))).map
          (fun v => (v.optionID, v.vote))).countP
            (fun p => decide (p.1 = o) && p.2) =
        votes.countP (fun v => decide (v.voteType = poll_type) &&
          decide (v.optionID = o) && v.vote) := by
      rw [List.countP_map, List.countP_filter, List.countP_filter]
      apply countP_ext
      intro w
      by_cases hw : w.optionID = o
      · cases hv2 : w.vote <;> cases hq : decide (w.voteType = poll_type) <;>
          simp [Function.comp, hw, hne, hv2, hq]
      · simp [Function.comp, hw]
    have hcd : (((votes.filter (fun v => decide (v.voteType = poll_type))).filter
        (fun v => decide (v.optionID ≠ ""))).map
          (fun v => (v.optionID, v.vote))).countP
            (fun p => decide (p.1 = o) && !p.2) =
        votes.countP (fun v => decide (v.voteType = poll_type) &&
          decide (v.optionID = o) && !v.vote) := by
      rw [List.countP_map, List.countP_filter, List.countP_filter]
      apply countP_ext
      intro w
      by_cases hw : w.optionID = o
      · cases hv2 : w.vote <;> cases hq : decide (w.voteType = poll_type) <;>
          simp [Function.comp, hw, hne, hv2, hq]
      · simp [Function.comp, hw]
    have hmem2 := List.mem_map_of_mem
      (fun p : String × Tally =>
        (⟨p.1, p.2.up, p.2.down, (p.2.up : Int) - p.2.down⟩ : OptionAgg)) hentry
    have hagg_eq : aggregate_poll_options votes poll_type =
        (tallyPairs (((votes.filter (fun v => decide (v.voteType = poll_type))).filter
          (fun v => decide (v.optionID ≠ ""))).map (fun v => (v.optionID, v.vote)))).map
          (fun p : String × Tally =>
            ⟨p.1, p.2.up, p.2.down, (p.2.up : Int) - p.2.down⟩) := by
      simp only [aggregate_poll_options]
      rw [tallyVotes_eq]
    rw [← hagg_eq] at hmem2
    refine ⟨_, hmem2, rfl, hcu, hcd, rfl, ?_⟩
    have hsplit := countP_and_split votes
      (fun v => decide (v.voteType = poll_type) && decide (v.optionID = o))
      (fun v => v.vote)
    rw [← hcu, ← hcd] at hsplit
    exact hsplit
  · obtain ⟨v, hv, hvt, hvo⟩ := hex
    have hvmem : v ∈ votes.filter (fun v => decide (v.voteType = "activity")) := by
      rw [List.mem_filter]
      exact ⟨hv, by simp [hvt]⟩
    have ho : o ∈ optIDs ((votes.filter
        (fun v => decide (v.voteType = "activity"))).map
          (fun v => (v.optionID, v.vote))) :=
      (mem_optIDs _ o).mpr ⟨(v.optionID, v.vote),
        List.mem_map_of_mem _ hvmem, hvo⟩
    have hentry := tallyPairs_count_entry _ o ho
    have hcu : ((votes.filter (fun v => decide (v.voteType = "activity"))).map
          (fun v => (v.optionID, v.vote))).countP
            (fun p => decide (p.1 = o) && p.2) =
        votes.countP (fun v => decide (v.voteType = "activity") &&
          decide (v.optionID = o) && v.vote) := by
      rw [List.countP_map, List.countP_filter]
      apply countP_ext
      intro w
      by_cases hw : w.optionID = o
      · cases hv2 : w.vote <;> cases hq : decide (w.voteType = "activity") <;>
          simp [Function.comp, hw, hv2, hq]
      · simp [Function.comp, hw]
    have hcd : ((votes.filter (fun v => decide (v.voteType = "activity"))).map
          (fun v => (v.optionID, v.vote))).countP
            (fun p => decide (p.1 = o) && !p.2) =
        votes.countP (fun v => decide (v.voteType = "activity") &&
          decide (v.optionID = o) && !v.vote) := by
      rw [List.countP_map, List.countP_filter]
      apply countP_ext
      intro w
      by_cases hw : w.optionID = o
      · cases hv2 : w.vote <;> cases hq : decide (w.voteType = "activity") <;>
          simp [Function.comp, hw, hv2, hq]
      · simp [Function.comp, hw]
    rw [← overview_activity_votes_eq] at hentry
    refine ⟨_, hentry, rfl, hcu, hcd, ?_⟩
    have hsplit := countP_and_split votes
      (fun v => decide (v.voteType = "activity") && decide (v.optionID = o))
      (fun v => v.vote)
    rw [← hcu, ← hcd] at hsplit
    exact hsplit

/-- C3 witness: the aggregation law applied to two concrete votes (one
up, one down) on option `"o1"`. -/
theorem aggregation_correct_witness :
    aggregate_poll_options exVotes "activity" = [⟨"o1", 1, 1, 0⟩] ∧
    exVotes.countP
      (fun v => decide (v.voteType = "activity") && decide (v.optionID = "o1")) = 2 := by
  obtain ⟨agg, hmem, ho, hu, hd, hn, hs⟩ :=
    (aggregation_correct exVotes "activity" "o1").2.1 (by decide) (by decide)
  exact ⟨by decide, by decide⟩

/-- C4 counterexample: with a failing collaborator, submissions
`[[], [exDay]]` (an empty first submission followed by a non-empty
one), the code returns `days = []`, not the first non-empty submission
`[exDay]` that the claim promises. -/
theorem merge_fallback_counterexample :
    (create_final_plan none [[], [exDay]] exPoll).days = [] ∧
    (create_final_plan_fallback_spec [[], [exDay]]).days = [exDay] ∧
    (create_final_plan none [[], [exDay]] exPoll).days ≠
      (create_final_plan_fallback_spec [[], [exDay]]).days :=
  ⟨rfl, rfl, fun h => List.noConfusion h⟩

/-- C4 (amended): if the collaborator call fails, the merger never
raises and ignores the poll results; with at least one submission it
returns the **first** submission (empty or not — an empty first
submission yields `days = []` even when later submissions are
non-empty) with the fixed merging summary, and with no submissions it
returns `days = []` with the unable summary. -/
theorem merge_fallback_amended (old_plans : List (List DayOut)) (pr : PollResults) :
    (old_plans = [] →
      create_final_plan none old_plans pr =
        ⟨[], "Unable to generate final plan."⟩) ∧
    (∀ p ps, old_plans = p :: ps →
      create_final_plan none old_plans pr =
        ⟨p, "Final plan created by merging multiple suggestions and incorporating poll results."⟩) ∧
    (∀ pr' : PollResults,
      create_final_plan none old_plans pr = create_final_plan none old_plans pr') := by
  refine ⟨fun h => by rw [h]; rfl, fun p ps h => ?_, fun pr' => rfl⟩
  subst h
  unfold create_final_plan
  cases p with
  | nil => rfl
  | cons d ds => rfl

/-- C4 witness: the amended fallback at one non-empty submission and at
the empty submission list. -/
theorem merge_fallback_amended_witness :
    create_final_plan none [[exDay]] exPoll =
      ⟨[exDay], "Final plan created by merging multiple suggestions and incorporating poll results."⟩ ∧
    create_final_plan none [] exPoll = ⟨[], "Unable to generate final plan."⟩ :=
  ⟨(merge_fallback_amended [[exDay]] exPoll).2.1 [exDay] [] rfl,
   (merge_fallback_amended [] exPoll).1 rfl⟩

set_option maxRecDepth 100000 in
/-- C6 counterexample: for an activity with no explicit ID, no
`location` key and `start_location = "Paris"`, the code hashes the key
`"Louvre_attraction_"` (empty location component), while the claim's
`start_location` fallback would hash `"Louvre_attraction_Paris"` — the
resulting IDs differ. -/
theorem resolve_id_fallback_counterexample :
    resolve_activity_id exSugAct = "act_533572211fdc" ∧
    resolve_activity_id_spec exSugAct = "act_0f2ff125eb6c" ∧
    resolve_activity_id exSugAct ≠ resolve_activity_id_spec exSugAct :=
  ⟨by decide, by decide, by decide⟩

/-- C6 (amended): a non-empty `activity_id` is passed through
unchanged; otherwise the ID is `act_` plus the first 12 hex characters
of the MD5 of the content key `(activity_name, type, location)`, where
a missing `location` contributes the **empty string** —
`start_location` is *not* consulted — so resolution is deterministic
and two activities with identical `(name, type, location)` but
different descriptions (or different `start_location`s) collapse to the
same ID. -/
theorem resolve_id_amended (a : SugAct) :
    (a.activity_id ≠ "" → resolve_activity_id a = a.activity_id) ∧
    (a.activity_id = "" →
      (resolve_activity_id a).data.take 4 = "act_".data ∧
      (resolve_activity_id a).data.length = 16 ∧
      (∀ c ∈ (resolve_activity_id a).data.drop 4, c ∈ hexDigitChars)) ∧
    (∀ b : SugAct, a.activity_id = "" → b.activity_id = "" →
      a.activity_name = b.activity_name → a.type = b.type →
      a.location = b.location →
      resolve_activity_id a = resolve_activity_id b) := by
  refine ⟨fun h => ?_, fun h => ?_, fun b ha hb hn ht hl =>
    resolve_activity_id_congr a b (ha.trans hb.symm) hn ht hl⟩
  · unfold resolve_activity_id
    rw [if_pos h]
  · have hres : resolve_activity_id a = "act_" ++
        ⟨(md5_hexdigest (a.activity_name ++ "_" ++ a.type ++ "_" ++
          a.location)).data.take 12⟩ := by
      unfold resolve_activity_id
      rw [if_neg (by simpa using h)]
    set w := (md5_hexdigest (a.activity_name ++ "_" ++ a.type ++ "_" ++
      a.location)).data with hw
    have hdata : (resolve_activity_id a).data = "act_".data ++ w.take 12 := by
      rw [hres]
      rfl
    have hwlen : w.length = 32 := md5_hexdigest_length _
    refine ⟨?_, ?_, ?_⟩
    · rw [hdata]
      exact List.take_left' rfl
    · rw [hdata, List.length_append, List.length_take, hwlen]
      rfl
    · intro c hc
      rw [hdata] at hc
      have hdrop : List.drop 4 ("act_".data ++ List.take 12 w) =
          List.take 12 w := List.drop_left' rfl
      rw [hdrop] at hc
      exact md5_hexdigest_chars _ c ((List.take_sublist 12 w).subset hc)

/-- C6 witness: pass-through of an explicit ID, and collapse of two
activities identical up to description / `start_location`. -/
theorem resolve_id_amended_witness :
    resolve_activity_id ⟨"act_9", "X", "food", "", "", "", ""⟩ = "act_9" ∧
    resolve_activity_id ⟨"", "Louvre", "attraction", "Paris", "A", "d1", ""⟩ =
      resolve_activity_id ⟨"", "Louvre", "attraction", "Paris", "B", "d2", "x"⟩ :=
  ⟨(resolve_id_amended ⟨"act_9", "X", "food", "", "", "", ""⟩).1 (by decide),
   (resolve_id_amended ⟨"", "Louvre", "attraction", "Paris", "A", "d1", ""⟩).2.2
     ⟨"", "Louvre", "attraction", "Paris", "B", "d2", "x"⟩ rfl rfl rfl rfl rfl⟩

/-- The completion response on a non-empty member list, by
computation. -/
theorem check_brainstorm_completion_cons (m : String) (ms user_ids : List String) :
    check_brainstorm_completion (m :: ms) user_ids =
      ⟨decide ((m :: ms).length ≤ (seenDedup user_ids).length),
        (m :: ms).length, (seenDedup user_ids).length, seenDedup user_ids⟩ := rfl

/-- C7 counterexample: with the duplicated member list `["u1", "u1"]`
and submitter `"u1"`, distinct submitters (1) ≥ distinct members (1),
yet the code reports `allCompleted = false` because it compares against
the raw member-list length (2); and with an empty member list the code
reports `false` although distinct ≥ distinct holds (0 ≥ 0). -/
theorem completion_counterexample :
    (check_brainstorm_completion ["u1", "u1"] ["u1"]).allCompleted = false ∧
    completion_spec_allCompleted ["u1", "u1"] ["u1"] = true ∧
    (check_brainstorm_completion [] []).allCompleted = false ∧
    completion_spec_allCompleted [] [] = true := by
  refine ⟨by decide, by decide, by decide, by decide⟩

/-- C7 (amended): with a non-empty member list, `allCompleted` holds
exactly when the number of **distinct** submitting user IDs reaches the
**length of the member list** (duplicates counted, not the distinct
member count); `totalMembers` is that length, `completedMembers` is the
distinct-submitter count, and `completedUserIDs` lists the distinct
submitters; an empty member list short-circuits to all-false/empty. The
voting completion check computes the identical function of its own
records. -/
theorem completion_amended (members user_ids : List String) :
    (members = [] →
      check_brainstorm_completion members user_ids = ⟨false, 0, 0, []⟩) ∧
    (members ≠ [] →
      ((check_brainstorm_completion members user_ids).allCompleted = true ↔
        members.length ≤ user_ids.toFinset.card) ∧
      (check_brainstorm_completion members user_ids).totalMembers = members.length ∧
      (check_brainstorm_completion members user_ids).completedMembers =
        user_ids.toFinset.card ∧
      (check_brainstorm_completion members user_ids).completedUserIDs.Nodup ∧
      (∀ u, u ∈ (check_brainstorm_completion members user_ids).completedUserIDs ↔
        u ∈ user_ids)) ∧
    check_polling_completion members user_ids =
      check_brainstorm_completion members user_ids := by
  refine ⟨fun h => by rw [h]; rfl, fun h => ?_, rfl⟩
  cases members with
  | nil => exact absurd rfl h
  | cons m ms =>
    rw [check_brainstorm_completion_cons]
    refine ⟨?_, rfl, seenDedup_length_eq_card user_ids, seenDedup_nodup user_ids,
      fun u => mem_seenDedup user_ids u⟩
    rw [seenDedup_length_eq_card user_ids]
    exact decide_eq_true_iff

/-- C7 witness: the amended completion law at a singleton member list
and at the empty member list. -/
theorem completion_amended_witness :
    check_brainstorm_completion [] ["u1"] = ⟨false, 0, 0, []⟩ ∧
    (check_brainstorm_completion ["u1"] ["u1", "u1"]).allCompleted = true :=
  ⟨(completion_amended [] ["u1"]).1 rfl,
   ((completion_amended ["u1"] ["u1", "u1"]).2.1 (by decide)).1.mpr (by decide)⟩

end Vibecation
